import Mathlib

/-!
Rudder release REST layer

A shallow embedding of `internal/resource/release.go`, `internal/resource/common.go`
and `internal/controller/release.go`.

* Go strings are Lean `String`s; the byte-level library routines that the handlers
  call (`strconv.ParseInt`, `strings.Split`) work on the character list.
* `int64`/`int32`/`uint64` values are `Int`/`Nat` with the bounds written out.
* Every effect of a handler (log lines, collaborator calls, response writes) is
  appended to an explicit trace of `Event`s, in program order.
* Collaborators that live outside these three files (the tiller client, the
  repo controller, chart loading, YAML marshalling, the response writer) are
  fields of an `Env` record.
-/

namespace Rudder

/-! ## Library routines used by the handlers -/

namespace strconv

/-- Largest `uint64`. -/
def maxUint64 : Nat := 2 ^ 64 - 1

/-- Errors of the `strconv` package (`ErrSyntax`, `ErrRange`). -/
inductive NumErr
  | ErrSyntax
  | ErrRange
  deriving DecidableEq, Repr

/-- The digit value that the `switch` in `ParseUint` assigns to a character, if any. -/
def digitVal (d : Char) : Option Nat :=
  if '0' ≤ d ∧ d ≤ '9' then some (d.toNat - '0'.toNat)
  else if 'a' ≤ d ∧ d ≤ 'z' then some (d.toNat - 'a'.toNat + 10)
  else if 'A' ≤ d ∧ d ≤ 'Z' then some (d.toNat - 'A'.toNat + 10)
  else none

/-- The loop of `ParseUint(s, 10, 64)`: `n` is the accumulator, the list is the
unread rest of the input. Returns the value together with the error (if any). -/
def parseUintLoop (n : Nat) : List Char → Nat × Option NumErr
  | [] => (n, none)
  | d :: rest =>
    match digitVal d with
    | none => (0, some .ErrSyntax)
    | some v =>
      if v ≥ 10 then (0, some .ErrSyntax)
      -- cutoff = maxUint64/10 + 1: n*10 overflows
      else if n ≥ maxUint64 / 10 + 1 then (maxUint64, some .ErrRange)
      -- n1 < n (wrap-around) or n1 > maxVal
      else if n * 10 + v > maxUint64 then (maxUint64, some .ErrRange)
      else parseUintLoop (n * 10 + v) rest

/-- Model of `strconv.ParseUint(s, 10, 64)`. -/
def ParseUint (s : List Char) : Nat × Option NumErr :=
  match s with
  | [] => (0, some .ErrSyntax)
  | _ => parseUintLoop 0 s

/-- Model of `strconv.ParseInt(s, 10, 64)`: value and error. -/
def ParseInt (s : String) : Int × Option NumErr :=
  match s.data with
  | [] => (0, some .ErrSyntax)
  | c :: cs =>
    let neg := c == '-'
    let body := if c == '+' ∨ c == '-' then cs else c :: cs
    match ParseUint body with
    | (_, some .ErrSyntax) => (0, some .ErrSyntax)
    | (un, _) =>
      let cutoff : Nat := 2 ^ 63
      if !neg ∧ un ≥ cutoff then ((cutoff : Int) - 1, some .ErrRange)
      else if neg ∧ un > cutoff then (-(cutoff : Int), some .ErrRange)
      else if neg then (-(un : Int), none)
      else ((un : Int), none)

end strconv

namespace strings

/-- Splitting a character list at every `sep`. -/
def splitChars (sep : Char) : List Char → List (List Char)
  | [] => [[]]
  | c :: cs =>
    if c = sep then [] :: splitChars sep cs
    else
      match splitChars sep cs with
      | [] => [[c]]
      | t :: ts => (c :: t) :: ts

/-- Model of `strings.Split(s, ",")`. -/
def SplitComma (s : String) : List String :=
  (splitChars ',' s.data).map String.mk

end strings

/-! ## Go maps and JSON values -/

/-- A Go `map[string]α`, kept as an association list. A `nil` map and an empty
map are both `[]`. -/
abbrev GoMap (α : Type) := List (String × α)

namespace GoMap

/-- Map read `m[k]` in its two-result form. -/
def get {α : Type} (m : GoMap α) (k : String) : Option α :=
  List.lookup k m

/-- Map assignment `m[k] = v`. -/
def set {α : Type} : GoMap α → String → α → GoMap α
  | [], k, v => [(k, v)]
  | (k', v') :: rest, k, v =>
    if k' = k then (k, v) :: rest else (k', v') :: set rest k v

/-- The keys of the map. -/
def keys {α : Type} (m : GoMap α) : List String :=
  m.map Prod.fst

end GoMap

/-- A parsed JSON text. A number keeps its literal, which is also what the
go-restful JSON reader (a `json.Decoder` with `UseNumber`) stores in an
`interface{}`. -/
inductive JSON
  | null
  | bool (b : Bool)
  | num (lit : String)
  | str (s : String)
  | arr (items : List JSON)
  | obj (members : List (String × JSON))
  deriving Repr, Inhabited

mutual
/-- The Go value that `encoding/json` stores into an `interface{}`: the same
tree, with every object turned into a map (a repeated key keeps its last value). -/
def JSON.toInterface : JSON → JSON
  | .null => .null
  | .bool b => .bool b
  | .num lit => .num lit
  | .str s => .str s
  | .arr items => .arr (JSON.toInterfaceList items)
  | .obj members => .obj (JSON.toInterfaceMap [] members)
/-- Decoding of the items of an array. -/
def JSON.toInterfaceList : List JSON → List JSON
  | [] => []
  | x :: xs => JSON.toInterface x :: JSON.toInterfaceList xs
/-- Decoding of the members of an object into the map `acc`: one map
assignment per member, in the order of the text. -/
def JSON.toInterfaceMap (acc : GoMap JSON) : List (String × JSON) → GoMap JSON
  | [] => acc
  | (k, v) :: rest => JSON.toInterfaceMap (GoMap.set acc k (JSON.toInterface v)) rest
end

/-! ## Types of the helm packages (only the fields this code sets) -/

/-- A Go `error`, by its text. -/
abbrev Error := String

namespace release

/-- The enum `release.Status_Code`; `UNKNOWN` is the zero value. -/
inductive Status_Code
  | UNKNOWN
  | DEPLOYED
  | DELETED
  | SUPERSEDED
  | FAILED
  deriving DecidableEq, Repr

instance : Inhabited Status_Code := ⟨.UNKNOWN⟩

end release

namespace hapi_chart

/-- The loaded chart `*hapi_chart.Chart`. -/
structure Chart where
  data : String
  deriving DecidableEq, Repr

/-- The message `hapi_chart.Value`. -/
structure Value where
  Value : String
  deriving DecidableEq, Repr

/-- The message `hapi_chart.Config`. -/
structure Config where
  Raw : String
  Values : GoMap Value
  deriving DecidableEq, Repr

end hapi_chart

namespace tiller

/-- The enum `tiller.ListSort_SortBy`; `UNKNOWN` is the zero value. -/
inductive ListSort_SortBy
  | UNKNOWN
  | NAME
  | LAST_RELEASED
  deriving DecidableEq, Repr

/-- The enum `tiller.ListSort_SortOrder`; `ASC` is the zero value. -/
inductive ListSort_SortOrder
  | ASC
  | DESC
  deriving DecidableEq, Repr

/-- The message `tiller.ListReleasesRequest`. -/
structure ListReleasesRequest where
  Limit : Int
  Offset : String
  SortBy : ListSort_SortBy
  Filter : String
  SortOrder : ListSort_SortOrder
  StatusCodes : List release.Status_Code
  deriving DecidableEq, Repr

/-- The message `tiller.InstallReleaseRequest`. -/
structure InstallReleaseRequest where
  Name : String
  Namespace : String
  Chart : hapi_chart.Chart
  Values : hapi_chart.Config
  Wait : Bool
  Timeout : Int
  deriving DecidableEq, Repr

/-- The message `tiller.UninstallReleaseRequest`. -/
structure UninstallReleaseRequest where
  Name : String
  Purge : Bool
  deriving DecidableEq, Repr

/-- The message `tiller.GetReleaseContentRequest`. -/
structure GetReleaseContentRequest where
  Name : String
  Version : Int
  deriving DecidableEq, Repr

/-- The message `tiller.GetReleaseStatusRequest`. -/
structure GetReleaseStatusRequest where
  Name : String
  Version : Int
  deriving DecidableEq, Repr

/-- The message `tiller.UpdateReleaseRequest`. -/
structure UpdateReleaseRequest where
  Name : String
  Chart : hapi_chart.Chart
  Values : hapi_chart.Config
  DryRun : Bool
  DisableHooks : Bool
  Recreate : Bool
  Timeout : Int
  ResetValues : Bool
  Wait : Bool
  ReuseValues : Bool
  Force : Bool
  deriving DecidableEq, Repr

/-- The message `tiller.RollbackReleaseRequest`. -/
structure RollbackReleaseRequest where
  Name : String
  DryRun : Bool
  DisableHooks : Bool
  Version : Int
  Recreate : Bool
  Timeout : Int
  Wait : Bool
  Force : Bool
  deriving DecidableEq, Repr

/-- The message `tiller.ListReleasesResponse`, as received. -/
structure ListReleasesResponse where
  data : String
  deriving DecidableEq, Repr

/-- The message `tiller.InstallReleaseResponse`, as received. -/
structure InstallReleaseResponse where
  data : String
  deriving DecidableEq, Repr

/-- The message `tiller.UninstallReleaseResponse`, as received. -/
structure UninstallReleaseResponse where
  data : String
  deriving DecidableEq, Repr

/-- The message `tiller.GetReleaseContentResponse`, as received. -/
structure GetReleaseContentResponse where
  data : String
  deriving DecidableEq, Repr

/-- The message `tiller.GetReleaseStatusResponse`, as received. -/
structure GetReleaseStatusResponse where
  data : String
  deriving DecidableEq, Repr

/-- The message `tiller.UpdateReleaseResponse`, as received. -/
structure UpdateReleaseResponse where
  data : String
  deriving DecidableEq, Repr

/-- The message `tiller.RollbackReleaseResponse`, as received. -/
structure RollbackReleaseResponse where
  data : String
  deriving DecidableEq, Repr

end tiller

namespace http

/-- The constant `http.StatusBadRequest`. -/
def StatusBadRequest : Nat := 400

/-- The constant `http.StatusInternalServerError`. -/
def StatusInternalServerError : Nat := 500

end http

namespace restful

/-- The type `restful.ServiceError`. -/
structure ServiceError where
  Code : Nat
  Message : String
  deriving DecidableEq, Repr

/-- The constructor `restful.NewError`. -/
def NewError (code : Nat) (message : String) : ServiceError :=
  { Code := code, Message := message }

/-- What a handler reads of a `*restful.Request`: the path parameters, the
decoded key/value pairs of the URL query in their order in the URL (a key
without `=` has the value `""`), and the JSON body (`none` when the body cannot
be read as JSON). -/
structure Request where
  pathParameters : GoMap String
  query : List (String × String)
  body : Option JSON

/-- The method `Request.PathParameter`. -/
def Request.PathParameter (req : Request) (name : String) : String :=
  (GoMap.get req.pathParameters name).getD ""

/-- The method `Request.QueryParameter`: the first value of the key, or `""`. -/
def Request.QueryParameter (req : Request) (name : String) : String :=
  (List.lookup name req.query).getD ""

/-- The expression `_, ok := req.Request.URL.Query()[name]`: whether the
parsed query has the key. -/
def Request.queryHasKey (req : Request) (name : String) : Bool :=
  (List.lookup name req.query).isSome

end restful

/-! ## Decoding a JSON body into a struct (`encoding/json`) -/

namespace json

/-- One exported struct field as the decoder sees it: its JSON name (from the
struct tag) and the assignment of a JSON value to it. -/
structure Field (σ : Type) where
  name : String
  assign : σ → JSON → Except Error σ

/-- The decoder's field table: of several fields carrying the same JSON name
at the same depth, all tagged, none is kept. -/
def typeFields {σ : Type} (fs : List (Field σ)) : List (Field σ) :=
  fs.filter (fun f => (fs.filter (fun g => g.name = f.name)).length = 1)

/-- The folding of one character under which keys and field names are
compared: ASCII capitals are lowered, and the two other characters whose simple
case folding reaches an ASCII letter go to that letter, the long s (U+017F) to
`s` and the Kelvin sign (U+212A) to `k`. -/
def foldRune (c : Char) : Char :=
  if c = Char.ofNat 0x017F then 's'
  else if c = Char.ofNat 0x212A then 'k'
  else c.toLower

/-- The folding under which a key and a field name match without regard to
case. Every field name of this package is made of ASCII letters, and on such
names it decides the same matches as the simple case folding of
`encoding/json`. -/
def foldName (s : String) : String :=
  String.mk (s.data.map foldRune)

/-- The field a key of the text is stored into: an exact match of the name,
otherwise the first case-insensitive match. -/
def findField {σ : Type} (fs : List (Field σ)) (key : String) : Option (Field σ) :=
  match fs.find? (fun f => f.name = key) with
  | some f => some f
  | none => fs.find? (fun f => foldName f.name = foldName key)

/-- A `string` field: `null` leaves it as it is, another type is an error. -/
def assignString {σ : Type} (upd : σ → String → σ) (s : σ) : JSON → Except Error σ
  | .str v => .ok (upd s v)
  | .null => .ok s
  | _ => .error "json: cannot unmarshal into Go value of type string"

/-- A `bool` field. -/
def assignBool {σ : Type} (upd : σ → Bool → σ) (s : σ) : JSON → Except Error σ
  | .bool v => .ok (upd s v)
  | .null => .ok s
  | _ => .error "json: cannot unmarshal into Go value of type bool"

/-- An `int64` field: the literal goes through `strconv.ParseInt(s, 10, 64)`. -/
def assignInt64 {σ : Type} (upd : σ → Int → σ) (s : σ) : JSON → Except Error σ
  | .num lit =>
    match strconv.ParseInt lit with
    | (n, none) => .ok (upd s n)
    | (_, some _) => .error "json: cannot unmarshal number into Go value of type int64"
  | .null => .ok s
  | _ => .error "json: cannot unmarshal into Go value of type int64"

/-- An `int32` field: as `int64`, then the overflow check for 32 bits. -/
def assignInt32 {σ : Type} (upd : σ → Int → σ) (s : σ) : JSON → Except Error σ
  | .num lit =>
    match strconv.ParseInt lit with
    | (n, none) =>
      if n < -(2 ^ 31) ∨ n > 2 ^ 31 - 1 then
        .error "json: cannot unmarshal number into Go value of type int32"
      else .ok (upd s n)
    | (_, some _) => .error "json: cannot unmarshal number into Go value of type int32"
  | .null => .ok s
  | _ => .error "json: cannot unmarshal into Go value of type int32"

/-- A `map[string]interface{}` field: an object is decoded into the map the
field already holds, `null` sets the field to the nil map. -/
def assignMap {σ : Type} (cur : σ → GoMap JSON) (upd : σ → GoMap JSON → σ) (s : σ) :
    JSON → Except Error σ
  | .obj members => .ok (upd s (JSON.toInterfaceMap (cur s) members))
  | .null => .ok (upd s [])
  | _ => .error "json: cannot unmarshal into Go value of type map[string]interface {}"

/-- Decoding of the members of an object, in the order of the text; a key
that matches no field is skipped. -/
def decodeMembers {σ : Type} (fs : List (Field σ)) : σ → List (String × JSON) → Except Error σ
  | s, [] => .ok s
  | s, (k, v) :: rest =>
    match findField (typeFields fs) k with
    | none => decodeMembers fs s rest
    | some f =>
      match f.assign s v with
      | .error e => .error e
      | .ok s' => decodeMembers fs s' rest

/-- The step of `decodeMembers` on one member: the struct after it, or the
error of the assignment. -/
def decodeMember {σ : Type} (fs : List (Field σ)) (s : σ) (k : String) (v : JSON) :
    Except Error σ :=
  match findField (typeFields fs) k with
  | none => .ok s
  | some f => f.assign s v

/-- Decoding of a JSON value into the struct `s`. -/
def Unmarshal {σ : Type} (fs : List (Field σ)) (s : σ) : JSON → Except Error σ
  | .obj members => decodeMembers fs s members
  | .null => .ok s
  | _ => .error "json: cannot unmarshal into Go value of struct type"

end json

/-- The method `Request.ReadEntity` for a JSON body, on a struct that already
holds its defaults. -/
def restful.Request.ReadEntity {σ : Type} (req : restful.Request) (fs : List (json.Field σ))
    (s : σ) : Except Error σ :=
  match req.body with
  | none => .error "unable to read the request body"
  | some j => json.Unmarshal fs s j

/-! ## internal/resource: request bodies, tables and fixed errors -/

namespace resource

/-- The struct `InstallReleaseRequest` of the resource package. -/
structure InstallReleaseRequest where
  Name : String := ""
  Namespace : String := ""
  Repo : String := ""
  Chart : String := ""
  Version : String := ""
  Values : GoMap JSON := []
  Wait : Bool := false
  Timeout : Int := 0

/-- The struct tags of `InstallReleaseRequest`. -/
def InstallReleaseRequest.fields : List (json.Field InstallReleaseRequest) :=
  [ ⟨"name", json.assignString (fun r v => { r with Name := v })⟩,
    ⟨"namespace", json.assignString (fun r v => { r with Namespace := v })⟩,
    ⟨"repo", json.assignString (fun r v => { r with Repo := v })⟩,
    ⟨"chart", json.assignString (fun r v => { r with Chart := v })⟩,
    ⟨"version", json.assignString (fun r v => { r with Version := v })⟩,
    ⟨"values", json.assignMap (fun r => r.Values) (fun r v => { r with Values := v })⟩,
    ⟨"wait", json.assignBool (fun r v => { r with Wait := v })⟩,
    ⟨"timeout", json.assignInt64 (fun r v => { r with Timeout := v })⟩ ]

/-- The struct `UpdateReleaseRequest` of the resource package. -/
structure UpdateReleaseRequest where
  Name : String := ""
  Chart : String := ""
  Repo : String := ""
  Version : String := ""
  Values : GoMap JSON := []
  DryRun : Bool := false
  DisableHooks : Bool := false
  Recreate : Bool := false
  Timeout : Int := 0
  ResetValues : Bool := false
  Wait : Bool := false
  ReuseValues : Bool := false
  Force : Bool := false

/-- The struct tags of `UpdateReleaseRequest`. -/
def UpdateReleaseRequest.fields : List (json.Field UpdateReleaseRequest) :=
  [ ⟨"name", json.assignString (fun r v => { r with Name := v })⟩,
    ⟨"chart", json.assignString (fun r v => { r with Chart := v })⟩,
    ⟨"repo", json.assignString (fun r v => { r with Repo := v })⟩,
    ⟨"version", json.assignString (fun r v => { r with Version := v })⟩,
    ⟨"values", json.assignMap (fun r => r.Values) (fun r v => { r with Values := v })⟩,
    ⟨"dryRun", json.assignBool (fun r v => { r with DryRun := v })⟩,
    ⟨"disableHooks", json.assignBool (fun r v => { r with DisableHooks := v })⟩,
    ⟨"recreate", json.assignBool (fun r v => { r with Recreate := v })⟩,
    ⟨"timeout", json.assignInt64 (fun r v => { r with Timeout := v })⟩,
    ⟨"resetValues", json.assignBool (fun r v => { r with ResetValues := v })⟩,
    ⟨"wait", json.assignBool (fun r v => { r with Wait := v })⟩,
    ⟨"reuseValues", json.assignBool (fun r v => { r with ReuseValues := v })⟩,
    ⟨"force", json.assignBool (fun r v => { r with Force := v })⟩ ]

/-- The struct `RollbackReleaseRequest` of the resource package. -/
structure RollbackReleaseRequest where
  Name : String := ""
  DryRun : Bool := false
  DisableHooks : Bool := false
  Version : Int := 0
  Recreate : Bool := false
  Timeout : Int := 0
  Wait : Bool := false
  Force : Bool := false

/-- The struct tags of `RollbackReleaseRequest`; `Force` is tagged `wait`. -/
def RollbackReleaseRequest.fields : List (json.Field RollbackReleaseRequest) :=
  [ ⟨"name", json.assignString (fun r v => { r with Name := v })⟩,
    ⟨"dryRun", json.assignBool (fun r v => { r with DryRun := v })⟩,
    ⟨"disableHooks", json.assignBool (fun r v => { r with DisableHooks := v })⟩,
    ⟨"version", json.assignInt32 (fun r v => { r with Version := v })⟩,
    ⟨"recreate", json.assignBool (fun r v => { r with Recreate := v })⟩,
    ⟨"timeout", json.assignInt64 (fun r v => { r with Timeout := v })⟩,
    ⟨"wait", json.assignBool (fun r v => { r with Wait := v })⟩,
    ⟨"wait", json.assignBool (fun r v => { r with Force := v })⟩ ]

/-- The table `sortByMap`. -/
def sortByMap : GoMap tiller.ListSort_SortBy :=
  [ ("unknown", .UNKNOWN), ("name", .NAME), ("last-released", .LAST_RELEASED) ]

/-- The table `sortOrderMap`. -/
def sortOrderMap : GoMap tiller.ListSort_SortOrder :=
  [ ("asc", .ASC), ("desc", .DESC) ]

/-- The table `statusCodeMap`. -/
def statusCodeMap : GoMap release.Status_Code :=
  [ ("unknown", .UNKNOWN), ("deployed", .DEPLOYED), ("deleted", .DELETED),
    ("superseded", .SUPERSEDED), ("failed", .FAILED) ]

def errFailToListReleases : restful.ServiceError :=
  restful.NewError http.StatusBadRequest "unable to get list of releases"
def errFailToInstallRelease : restful.ServiceError :=
  restful.NewError http.StatusInternalServerError "unable to install releases"
def errFailtToUninstallRelease : restful.ServiceError :=
  restful.NewError http.StatusInternalServerError "unable to uninstall releases"
def errFailToGetRelease : restful.ServiceError :=
  restful.NewError http.StatusInternalServerError "unable to get release content and status"
def errFailToUpdateRelease : restful.ServiceError :=
  restful.NewError http.StatusInternalServerError "unable to update release"
def errFailToRollbackRelease : restful.ServiceError :=
  restful.NewError http.StatusInternalServerError "unable to rollback release"
def errFailToReadResponse : restful.ServiceError :=
  restful.NewError http.StatusBadRequest "unable to read request body"
def errFailToWriteResponse : restful.ServiceError :=
  restful.NewError http.StatusInternalServerError "unable to write response"

end resource

/-! ## internal/controller -/

namespace controller

/-- The struct `GetReleaseResponse`. -/
structure GetReleaseResponse where
  Content : tiller.GetReleaseContentResponse
  Status : tiller.GetReleaseStatusResponse
  deriving DecidableEq, Repr

/-- The part of the result of `ChartDetails` that is read: the archive location. -/
structure ChartDetail where
  ChartFile : String
  deriving DecidableEq, Repr

end controller

/-- A value handed to `Response.WriteEntity`. -/
inductive Entity
  | listReleases (r : tiller.ListReleasesResponse)
  | installRelease (r : tiller.InstallReleaseResponse)
  | uninstallRelease (r : tiller.UninstallReleaseResponse)
  | getRelease (r : controller.GetReleaseResponse)
  | updateRelease (r : tiller.UpdateReleaseResponse)
  | rollbackRelease (r : tiller.RollbackReleaseResponse)
  deriving DecidableEq, Repr

/-- The collaborators of the two packages: the tiller client
(`internal/client`), `RepoController.ChartDetails`, `chartutil.LoadFile`,
`yaml.Marshal`, `fmt.Sprintf("%v", v)` on arrays and maps, `util.ToInt32`, and
the two write methods of `restful.Response` (`none` is a nil error). -/
structure Env where
  ListReleases : tiller.ListReleasesRequest → Except Error tiller.ListReleasesResponse
  InstallRelease : tiller.InstallReleaseRequest → Except Error tiller.InstallReleaseResponse
  UninstallRelease : tiller.UninstallReleaseRequest → Except Error tiller.UninstallReleaseResponse
  GetReleaseContent :
    tiller.GetReleaseContentRequest → Except Error tiller.GetReleaseContentResponse
  GetReleaseStatus : tiller.GetReleaseStatusRequest → Except Error tiller.GetReleaseStatusResponse
  UpdateRelease : tiller.UpdateReleaseRequest → Except Error tiller.UpdateReleaseResponse
  RollbackRelease : tiller.RollbackReleaseRequest → Except Error tiller.RollbackReleaseResponse
  ChartDetails : String → String → String → Except Error controller.ChartDetail
  LoadFile : String → Except Error hapi_chart.Chart
  yamlMarshal : GoMap JSON → Except Error String
  sprintComposite : JSON → String
  ToInt32 : String → Int
  WriteEntity : Entity → Option Error
  WriteServiceError : Nat → restful.ServiceError → Option Error

/-- One effect of a handler. -/
inductive Event
  | logInfo (msg : String)
  | logError (msg : String)
  | ChartDetails (repo chart version : String)
  | LoadFile (tarball : String)
  | ListReleases (req : tiller.ListReleasesRequest)
  | InstallRelease (req : tiller.InstallReleaseRequest)
  | UninstallRelease (req : tiller.UninstallReleaseRequest)
  | GetReleaseContent (req : tiller.GetReleaseContentRequest)
  | GetReleaseStatus (req : tiller.GetReleaseStatusRequest)
  | UpdateRelease (req : tiller.UpdateReleaseRequest)
  | RollbackRelease (req : tiller.RollbackReleaseRequest)
  | WriteEntity (e : Entity)
  | WriteServiceError (httpStatus : Nat) (err : restful.ServiceError)
  deriving DecidableEq, Repr

/-- The call `fmt.Sprintf("%v", v)` on a decoded JSON value. -/
def sprintfV (env : Env) : JSON → String
  | .null => "<nil>"
  | .bool true => "true"
  | .bool false => "false"
  | .num lit => lit
  | .str s => s
  | v => env.sprintComposite v

/-- The statement `raw, _ := yaml.Marshal(values)` followed by `string(raw)`. -/
def rawValues (env : Env) (values : GoMap JSON) : String :=
  match env.yamlMarshal values with
  | .ok raw => raw
  | .error _ => ""

/-- The loop `for k, v := range values { inValues[k] = &Value{Sprintf("%v", v)} }`
on the entries not yet visited. -/
def overlayLoop (env : Env) (inValues : GoMap hapi_chart.Value) :
    GoMap JSON → GoMap hapi_chart.Value
  | [] => inValues
  | (k, v) :: rest => overlayLoop env (GoMap.set inValues k { Value := sprintfV env v }) rest

/-- The `hapi_chart.Config` built by `InstallRelease` and `UpdateRelease`. -/
def valuesConfig (env : Env) (values : GoMap JSON) : hapi_chart.Config :=
  { Raw := rawValues env values, Values := overlayLoop env [] values }

namespace ReleaseController

/-- The method `ReleaseController.ListReleases`. -/
def ListReleases (env : Env) (req : tiller.ListReleasesRequest) :
    Except Error tiller.ListReleasesResponse × List Event :=
  match env.ListReleases req with
  | .error err =>
    (.error err, [.ListReleases req, .logError "unable to get list of releases from tiller"])
  | .ok res => (.ok res, [.ListReleases req])

/-- The method `ReleaseController.InstallRelease`. -/
def InstallRelease (env : Env) (name namespace_ repo chart version : String)
    (values : GoMap JSON) (wait : Bool) (timeout : Int) :
    Except Error tiller.InstallReleaseResponse × List Event :=
  match env.ChartDetails repo chart version with
  | .error err =>
    (.error err, [.ChartDetails repo chart version, .logError "unable to get chart details"])
  | .ok chartDetails =>
    let tarball := chartDetails.ChartFile
    match env.LoadFile tarball with
    | .error err =>
      (.error err, [.ChartDetails repo chart version, .LoadFile tarball,
        .logError "unable to load chart details"])
    | .ok inChart =>
      let config := valuesConfig env values
      let req : tiller.InstallReleaseRequest :=
        { Name := name, Namespace := namespace_, Chart := inChart, Values := config,
          Wait := wait, Timeout := timeout }
      match env.InstallRelease req with
      | .error err =>
        (.error err, [.ChartDetails repo chart version, .LoadFile tarball, .InstallRelease req,
          .logError "unable to install new release"])
      | .ok res =>
        (.ok res, [.ChartDetails repo chart version, .LoadFile tarball, .InstallRelease req])

/-- The method `ReleaseController.UninstallRelease`. -/
def UninstallRelease (env : Env) (releaseName : String) (purge : Bool) :
    Except Error tiller.UninstallReleaseResponse × List Event :=
  let req : tiller.UninstallReleaseRequest := { Name := releaseName, Purge := purge }
  match env.UninstallRelease req with
  | .error err => (.error err, [.UninstallRelease req, .logError "unable to uninstall release"])
  | .ok res => (.ok res, [.UninstallRelease req])

/-- The method `ReleaseController.GetRelease`. -/
def GetRelease (env : Env) (name : String) (version : Int) :
    Except Error controller.GetReleaseResponse × List Event :=
  let req : tiller.GetReleaseContentRequest := { Name := name, Version := version }
  match env.GetReleaseContent req with
  | .error err => (.error err, [.GetReleaseContent req, .logError "unable to get release content"])
  | .ok content =>
    let req2 : tiller.GetReleaseStatusRequest := { Name := name, Version := version }
    match env.GetReleaseStatus req2 with
    | .error err =>
      (.error err, [.GetReleaseContent req, .GetReleaseStatus req2,
        .logError "unable to get release status"])
    | .ok status =>
      (.ok { Content := content, Status := status },
        [.GetReleaseContent req, .GetReleaseStatus req2])

/-- The method `ReleaseController.UpdateRelease`. -/
def UpdateRelease (env : Env) (name chart repo version : String) (values : GoMap JSON)
    (dryRun disableHooks recreate : Bool) (timeout : Int)
    (resetValues wait reuseValues force : Bool) :
    Except Error tiller.UpdateReleaseResponse × List Event :=
  match env.ChartDetails repo chart version with
  | .error err =>
    (.error err, [.ChartDetails repo chart version, .logError "unable to get chart details"])
  | .ok chartDetails =>
    let tarball := chartDetails.ChartFile
    match env.LoadFile tarball with
    | .error err =>
      (.error err, [.ChartDetails repo chart version, .LoadFile tarball,
        .logError "unable to load chart details"])
    | .ok inChart =>
      let config := valuesConfig env values
      let req : tiller.UpdateReleaseRequest :=
        { Name := name, Chart := inChart, Values := config, DryRun := dryRun,
          DisableHooks := disableHooks, Recreate := recreate, Timeout := timeout,
          ResetValues := resetValues, Wait := wait, ReuseValues := reuseValues, Force := force }
      match env.UpdateRelease req with
      | .error err =>
        (.error err, [.ChartDetails repo chart version, .LoadFile tarball, .UpdateRelease req,
          .logError "unable to update release"])
      | .ok res =>
        (.ok res, [.ChartDetails repo chart version, .LoadFile tarball, .UpdateRelease req])

/-- The method `ReleaseController.RollbackRelease`. -/
def RollbackRelease (env : Env) (name : String) (dryRun disableHooks : Bool) (version : Int)
    (recreate : Bool) (timeout : Int) (wait force : Bool) :
    Except Error tiller.RollbackReleaseResponse × List Event :=
  let req : tiller.RollbackReleaseRequest :=
    { Name := name, DryRun := dryRun, DisableHooks := disableHooks, Version := version,
      Recreate := recreate, Timeout := timeout, Wait := wait, Force := force }
  match env.RollbackRelease req with
  | .error err => (.error err, [.RollbackRelease req, .logError "unable to update release"])
  | .ok res => (.ok res, [.RollbackRelease req])

end ReleaseController

/-! ## internal/resource: the handlers -/

namespace resource

/-- The function `errorResponse`. -/
def errorResponse (env : Env) (err : restful.ServiceError) : List Event :=
  match env.WriteServiceError err.Code err with
  | some _ =>
    [.logError err.Message, .WriteServiceError err.Code err, .logError "unable to write error"]
  | none => [.logError err.Message, .WriteServiceError err.Code err]

/-- The tail of every handler: `res.WriteEntity(out)` and, when that fails,
`errorResponse(res, errFailToWriteResponse)`. -/
def writeEntity (env : Env) (out : Entity) : List Event :=
  match env.WriteEntity out with
  | some _ => .WriteEntity out :: errorResponse env errFailToWriteResponse
  | none => [.WriteEntity out]

/-- The loop over the tokens of `status-code`: a slot is assigned only when the
token is in `statusCodeMap`, otherwise it keeps the zero value of `make`. -/
def statusCodesOf (scs : List String) : List release.Status_Code :=
  scs.map (fun s =>
    match GoMap.get statusCodeMap s with
    | some sc => sc
    | none => release.Status_Code.UNKNOWN)

/-- The `ListReleasesRequest` that `listReleases` builds from the query. -/
def listReleasesRequest (req : restful.Request) : tiller.ListReleasesRequest :=
  let limit := (strconv.ParseInt (req.QueryParameter "limit")).1
  let offset := req.QueryParameter "offset"
  let sortBy := (GoMap.get sortByMap (req.QueryParameter "sort-by")).getD .UNKNOWN
  let filter := req.QueryParameter "filter"
  let sortOrder := (GoMap.get sortOrderMap (req.QueryParameter "sort-order")).getD .ASC
  let statusCodesRaw := req.QueryParameter "status-code"
  let statusCodes : List release.Status_Code :=
    if statusCodesRaw.length > 0 then
      let scs := strings.SplitComma statusCodesRaw
      if scs.length > 0 then statusCodesOf scs else []
    else []
  { Limit := limit, Offset := offset, SortBy := sortBy, Filter := filter,
    SortOrder := sortOrder, StatusCodes := statusCodes }

namespace ReleaseResource

/-- The handler `listReleases`. -/
def listReleases (env : Env) (req : restful.Request) : List Event :=
  let request := listReleasesRequest req
  match ReleaseController.ListReleases env request with
  | (.error _, tr) =>
    .logInfo "Getting list of releases..." :: tr ++ errorResponse env errFailToListReleases
  | (.ok response, tr) =>
    .logInfo "Getting list of releases..." :: tr ++ writeEntity env (.listReleases response)

/-- The handler `installRelease`. -/
def installRelease (env : Env) (req : restful.Request) : List Event :=
  match req.ReadEntity InstallReleaseRequest.fields
      { Namespace := "default", Version := "latest" } with
  | .error _ => errorResponse env errFailToReadResponse
  | .ok in_ =>
    match ReleaseController.InstallRelease env in_.Name in_.Namespace in_.Repo in_.Chart
        in_.Version in_.Values in_.Wait in_.Timeout with
    | (.error _, tr) => tr ++ errorResponse env errFailToInstallRelease
    | (.ok out, tr) => tr ++ writeEntity env (.installRelease out)

/-- The handler `updateRelease`. -/
def updateRelease (env : Env) (req : restful.Request) : List Event :=
  match req.ReadEntity UpdateReleaseRequest.fields { Version := "latest" } with
  | .error _ => errorResponse env errFailToReadResponse
  | .ok in_ =>
    match ReleaseController.UpdateRelease env in_.Name in_.Chart in_.Repo in_.Version in_.Values
        in_.DryRun in_.DisableHooks in_.Recreate in_.Timeout in_.ResetValues in_.Wait
        in_.ReuseValues in_.Force with
    | (.error _, tr) => tr ++ errorResponse env errFailToUpdateRelease
    | (.ok out, tr) => tr ++ writeEntity env (.updateRelease out)

/-- The handler `uninstallRelease`. -/
def uninstallRelease (env : Env) (req : restful.Request) : List Event :=
  let releaseName := req.PathParameter "release"
  let purge := req.queryHasKey "purge"
  match ReleaseController.UninstallRelease env releaseName purge with
  | (.error _, tr) => tr ++ errorResponse env errFailtToUninstallRelease
  | (.ok out, tr) => tr ++ writeEntity env (.uninstallRelease out)

/-- The handler `getRelease`. -/
def getRelease (env : Env) (req : restful.Request) : List Event :=
  let name := req.PathParameter "release"
  let versionRaw := req.PathParameter "version"
  let version := env.ToInt32 versionRaw
  match ReleaseController.GetRelease env name version with
  | (.error _, tr) => tr ++ errorResponse env errFailToGetRelease
  | (.ok out, tr) => tr ++ writeEntity env (.getRelease out)

/-- The handler `rollbackRelease`. -/
def rollbackRelease (env : Env) (req : restful.Request) : List Event :=
  match req.ReadEntity RollbackReleaseRequest.fields {} with
  | .error _ => errorResponse env errFailToReadResponse
  | .ok in_ =>
    match ReleaseController.RollbackRelease env in_.Name in_.DryRun in_.DisableHooks in_.Version
        in_.Recreate in_.Timeout in_.Wait in_.Force with
    | (.error _, tr) => tr ++ errorResponse env errFailToRollbackRelease
    | (.ok out, tr) => tr ++ writeEntity env (.rollbackRelease out)

end ReleaseResource

end resource

/-! ## A sample environment -/

/-- An environment in which every collaborator succeeds. -/
def okEnv : Env where
  ListReleases := fun _ => .ok ⟨"releases"⟩
  InstallRelease := fun _ => .ok ⟨"installed"⟩
  UninstallRelease := fun _ => .ok ⟨"uninstalled"⟩
  GetReleaseContent := fun _ => .ok ⟨"content"⟩
  GetReleaseStatus := fun _ => .ok ⟨"status"⟩
  UpdateRelease := fun _ => .ok ⟨"updated"⟩
  RollbackRelease := fun _ => .ok ⟨"rolled back"⟩
  ChartDetails := fun repo chart version => .ok ⟨repo ++ "/" ++ chart ++ "-" ++ version ++ ".tgz"⟩
  LoadFile := fun tarball => .ok ⟨tarball⟩
  yamlMarshal := fun values => .ok (String.join (values.map (fun e => e.1 ++ ": ?\n")))
  sprintComposite := fun _ => "?"
  ToInt32 := fun s => (strconv.ParseInt s).1
  WriteEntity := fun _ => none
  WriteServiceError := fun _ _ => none

/-- An environment in which every tiller call fails. -/
def downEnv : Env :=
  { okEnv with
    ListReleases := fun _ => .error "rpc error"
    InstallRelease := fun _ => .error "rpc error"
    UninstallRelease := fun _ => .error "rpc error"
    GetReleaseContent := fun _ => .error "rpc error"
    GetReleaseStatus := fun _ => .error "rpc error"
    UpdateRelease := fun _ => .error "rpc error"
    RollbackRelease := fun _ => .error "rpc error" }

/-- An environment whose repositories know no chart. -/
def noChartEnv : Env :=
  { okEnv with ChartDetails := fun _ _ _ => .error "chart not found" }

/-- An environment in which no chart archive can be loaded. -/
def badArchiveEnv : Env :=
  { okEnv with LoadFile := fun _ => .error "unreadable archive" }

/-- The install request `{name:"x", namespace:"", chart:"c", repo:"r",
version:"", values:{"a":1}}`. -/
def installWithEmptyStrings : restful.Request :=
  { pathParameters := [], query := [],
    body := some (.obj [("name", .str "x"), ("namespace", .str ""), ("chart", .str "c"),
      ("repo", .str "r"), ("version", .str ""), ("values", .obj [("a", .num "1")])]) }

/-- The install request `{name:"x", chart:"c", repo:"r", values:{"a":1}}`. -/
def installWithKeysOmitted : restful.Request :=
  { pathParameters := [], query := [],
    body := some (.obj [("name", .str "x"), ("chart", .str "c"), ("repo", .str "r"),
      ("values", .obj [("a", .num "1")])]) }

/-- The update request `{name:"x", chart:"c", repo:"r"}`. -/
def updateWithVersionOmitted : restful.Request :=
  { pathParameters := [], query := [],
    body := some (.obj [("name", .str "x"), ("chart", .str "c"), ("repo", .str "r")]) }

/-- The rollback request `{name:"x", version:3, wait:true, force:true}`. -/
def rollbackWithWaitAndForce : restful.Request :=
  { pathParameters := [], query := [],
    body := some (.obj [("name", .str "x"), ("version", .num "3"), ("wait", .bool true),
      ("force", .bool true)]) }

/-- The install request `{name:"x", chart:"c", repo:"r", VERSION:"1.2"}`. -/
def installWithUpperCaseVersion : restful.Request :=
  { pathParameters := [], query := [],
    body := some (.obj [("name", .str "x"), ("chart", .str "c"), ("repo", .str "r"),
      ("VERSION", .str "1.2")]) }

/-- The install request `{name:"x", chart:"c", repo:"r", version:null}`. -/
def installWithNullVersion : restful.Request :=
  { pathParameters := [], query := [],
    body := some (.obj [("name", .str "x"), ("chart", .str "c"), ("repo", .str "r"),
      ("version", .null)]) }

/-- An environment in which `yaml.Marshal` fails, as it does on a map holding
a value without a JSON form (a `json.Number` that is no number, for instance). -/
def failingYamlEnv : Env :=
  { okEnv with yamlMarshal := fun _ => .error "json: invalid number literal" }

/-! ## Notions used to state the properties -/

/-- The error, if any, of the first two steps of `InstallRelease` and
`UpdateRelease`: resolving the chart reference and loading the archive. -/
def resolutionError (env : Env) (repo chart version : String) : Option Error :=
  match env.ChartDetails repo chart version with
  | .error e => some e
  | .ok chartDetails =>
    match env.LoadFile chartDetails.ChartFile with
    | .error e => some e
    | .ok _ => none

/-- Whether an event writes to the HTTP response. -/
def Event.isWrite : Event → Bool
  | .WriteEntity _ => true
  | .WriteServiceError _ _ => true
  | _ => false

/-- The writes to the HTTP response in a trace, in order. -/
def responsesOf (tr : List Event) : List Event :=
  tr.filter Event.isWrite

/-- The status a token of `status-code` stands for: the enum value of the five
names, and the zero value `UNKNOWN` for every other token. -/
def statusOfToken (token : String) : release.Status_Code :=
  if token = "deployed" then .DEPLOYED
  else if token = "deleted" then .DELETED
  else if token = "superseded" then .SUPERSEDED
  else if token = "failed" then .FAILED
  else .UNKNOWN

/-- The number a string of decimal digits denotes, read after the number `n`
of the digits before it. -/
def decimalFrom (n : Nat) (ds : List Char) : Nat :=
  ds.foldl (fun acc c => acc * 10 + (c.toNat - '0'.toNat)) n

/-- The number a string of decimal digits denotes. -/
def decimalValue (ds : List Char) : Nat :=
  decimalFrom 0 ds

/-- The value the members of a body give to the field with the JSON name
`name`, starting from the value `cur` the field holds: each member whose key
matches the name, in the order of the text, stores its value with `store`. -/
def bodyField {α : Type} (name : String) (store : α → JSON → α) (cur : α) :
    List (String × JSON) → α
  | [] => cur
  | (k, v) :: rest =>
    bodyField name store (if json.foldName name = json.foldName k then store cur v else cur) rest

/-- What a member stores into a `string` field: a string replaces the value,
`null` leaves it. -/
def storeString (cur : String) : JSON → String
  | .str x => x
  | _ => cur

/-- What a member stores into a `bool` field: a boolean replaces the value,
`null` leaves it. -/
def storeBool (cur : Bool) : JSON → Bool
  | .bool b => b
  | _ => cur

/-- What a member stores into an `int64` field: a number replaces the value by
the integer its literal denotes, `null` leaves it. -/
def storeInt (cur : Int) : JSON → Int
  | .num lit => (strconv.ParseInt lit).1
  | _ => cur

/-- What a member stores into a `map[string]interface{}` field: an object is
added to the map member by member, `null` resets the field to the nil map. -/
def storeMap (cur : GoMap JSON) : JSON → GoMap JSON
  | .obj members => JSON.toInterfaceMap cur members
  | .null => []
  | _ => cur

/-! ## Theorems -/

open resource

/-- Membership in the parsed query, read off `List.lookup`. -/
theorem lookup_isSome_iff {α : Type} (k : String) (l : List (String × α)) :
    (List.lookup k l).isSome = true ↔ ∃ v, (k, v) ∈ l := by
  induction l with
  | nil => simp [List.lookup]
  | cons p rest ih =>
    obtain ⟨k', v'⟩ := p
    by_cases h : k = k'
    · subst h
      simp [List.lookup]
    · have hb : (k == k') = false := by simpa using h
      simp only [List.lookup, hb, ih, List.mem_cons, Prod.mk.injEq]
      constructor
      · rintro ⟨v, hv⟩
        exact ⟨v, Or.inr hv⟩
      · rintro ⟨v, hv | hv⟩
        · exact absurd hv.1 h
        · exact ⟨v, hv⟩

/-- C6: `GetRelease` first fetches the content for `(name, version)`; when that
fails it returns the error and no status request is issued; otherwise it
fetches the status for the same `(name, version)`, and returns the error of
that call, or the pair of the two responses when both succeed. -/
theorem GetRelease_sequencing (env : Env) (name : String) (version : Int) :
    match env.GetReleaseContent ⟨name, version⟩ with
    | .error e =>
      (ReleaseController.GetRelease env name version).1 = .error e ∧
      (ReleaseController.GetRelease env name version).2 =
        [.GetReleaseContent ⟨name, version⟩, .logError "unable to get release content"] ∧
      ∀ q, Event.GetReleaseStatus q ∉ (ReleaseController.GetRelease env name version).2
    | .ok content =>
      match env.GetReleaseStatus ⟨name, version⟩ with
      | .error e =>
        (ReleaseController.GetRelease env name version).1 = .error e ∧
        (ReleaseController.GetRelease env name version).2 =
          [.GetReleaseContent ⟨name, version⟩, .GetReleaseStatus ⟨name, version⟩,
            .logError "unable to get release status"]
      | .ok status =>
        (ReleaseController.GetRelease env name version).1 = .ok ⟨content, status⟩ ∧
        (ReleaseController.GetRelease env name version).2 =
          [.GetReleaseContent ⟨name, version⟩, .GetReleaseStatus ⟨name, version⟩] := by
  cases hc : env.GetReleaseContent ⟨name, version⟩ with
  | error e => simp [ReleaseController.GetRelease, hc]
  | ok content =>
    cases hs : env.GetReleaseStatus ⟨name, version⟩ with
    | error e => simp [ReleaseController.GetRelease, hc, hs]
    | ok status => simp [ReleaseController.GetRelease, hc, hs]

/-- C9: `uninstallRelease` issues exactly one uninstall request, first of all
its effects; its `Name` is the `release` path parameter and its `Purge` flag is
true exactly when the parsed query has a `purge` key, whatever the value. -/
theorem uninstallRelease_purge (env : Env) (req : restful.Request) :
    ∃ purge rest,
      ReleaseResource.uninstallRelease env req =
        .UninstallRelease ⟨req.PathParameter "release", purge⟩ :: rest ∧
      (∀ q, Event.UninstallRelease q ∉ rest) ∧
      (purge = true ↔ ∃ v, ("purge", v) ∈ req.query) := by
  refine ⟨req.queryHasKey "purge", (ReleaseResource.uninstallRelease env req).tail, ?_, ?_,
    lookup_isSome_iff "purge" req.query⟩
  · cases h : env.UninstallRelease ⟨req.PathParameter "release", req.queryHasKey "purge"⟩ <;>
      simp [ReleaseResource.uninstallRelease, ReleaseController.UninstallRelease, h]
  · intro q
    cases h : env.UninstallRelease ⟨req.PathParameter "release", req.queryHasKey "purge"⟩
    · simp only [ReleaseResource.uninstallRelease, ReleaseController.UninstallRelease, h,
        errorResponse]
      split <;> simp
    · simp only [ReleaseResource.uninstallRelease, ReleaseController.UninstallRelease, h,
        writeEntity, errorResponse]
      split
      · split <;> simp
      · simp

/-- The events of `errorResponse`: the log line, the error written with its
own code as the HTTP status, and at most a log line for a failed write. -/
theorem errorResponse_shape (env : Env) (err : restful.ServiceError) :
    ∃ tail, errorResponse env err =
        .logError err.Message :: .WriteServiceError err.Code err :: tail ∧
      ∀ ev ∈ tail, ev = Event.logError "unable to write error" := by
  unfold errorResponse
  split
  · exact ⟨[.logError "unable to write error"], rfl, by simp⟩
  · exact ⟨[], rfl, by simp⟩

/-- When chart resolution fails, `InstallRelease` returns the error after at
most the two resolution steps. -/
theorem InstallRelease_resolution_failure (env : Env) (name namespace_ repo chart version : String)
    (values : GoMap JSON) (wait : Bool) (timeout : Int) (e : Error)
    (h : resolutionError env repo chart version = some e) :
    (ReleaseController.InstallRelease env name namespace_ repo chart version values wait
        timeout).1 = .error e ∧
      ∀ q, Event.InstallRelease q ∉
        (ReleaseController.InstallRelease env name namespace_ repo chart version values wait
          timeout).2 := by
  unfold resolutionError at h
  cases hc : env.ChartDetails repo chart version with
  | error e1 =>
    simp only [hc, Option.some.injEq] at h
    subst h
    simp [ReleaseController.InstallRelease, hc]
  | ok d =>
    simp only [hc] at h
    cases hl : env.LoadFile d.ChartFile with
    | error e1 =>
      simp only [hl, Option.some.injEq] at h
      subst h
      simp [ReleaseController.InstallRelease, hc, hl]
    | ok c => simp [hl] at h

/-- When chart resolution fails, `UpdateRelease` returns the error after at
most the two resolution steps. -/
theorem UpdateRelease_resolution_failure (env : Env) (name chart repo version : String)
    (values : GoMap JSON) (dryRun disableHooks recreate : Bool) (timeout : Int)
    (resetValues wait reuseValues force : Bool) (e : Error)
    (h : resolutionError env repo chart version = some e) :
    (ReleaseController.UpdateRelease env name chart repo version values dryRun disableHooks
        recreate timeout resetValues wait reuseValues force).1 = .error e ∧
      ∀ q, Event.UpdateRelease q ∉
        (ReleaseController.UpdateRelease env name chart repo version values dryRun disableHooks
          recreate timeout resetValues wait reuseValues force).2 := by
  unfold resolutionError at h
  cases hc : env.ChartDetails repo chart version with
  | error e1 =>
    simp only [hc, Option.some.injEq] at h
    subst h
    simp [ReleaseController.UpdateRelease, hc]
  | ok d =>
    simp only [hc] at h
    cases hl : env.LoadFile d.ChartFile with
    | error e1 =>
      simp only [hl, Option.some.injEq] at h
      subst h
      simp [ReleaseController.UpdateRelease, hc, hl]
    | ok c => simp [hl] at h

/-- The `installRelease` handler after a successful read of the body: a
controller error of any origin is answered by `errFailToInstallRelease`. -/
theorem installRelease_on_error (env : Env) (req : restful.Request) (in_ : InstallReleaseRequest)
    (e : Error)
    (hread : req.ReadEntity InstallReleaseRequest.fields
      { Namespace := "default", Version := "latest" } = .ok in_)
    (herr : (ReleaseController.InstallRelease env in_.Name in_.Namespace in_.Repo in_.Chart
      in_.Version in_.Values in_.Wait in_.Timeout).1 = .error e) :
    ReleaseResource.installRelease env req =
      (ReleaseController.InstallRelease env in_.Name in_.Namespace in_.Repo in_.Chart
        in_.Version in_.Values in_.Wait in_.Timeout).2 ++
        errorResponse env errFailToInstallRelease := by
  unfold ReleaseResource.installRelease
  simp only [hread]
  generalize ReleaseController.InstallRelease env in_.Name in_.Namespace in_.Repo in_.Chart
    in_.Version in_.Values in_.Wait in_.Timeout = r at herr ⊢
  obtain ⟨r1, r2⟩ := r
  cases r1 with
  | error e1 => rfl
  | ok out => simp at herr

/-- The `updateRelease` handler after a successful read of the body: a
controller error of any origin is answered by `errFailToUpdateRelease`. -/
theorem updateRelease_on_error (env : Env) (req : restful.Request) (in_ : UpdateReleaseRequest)
    (e : Error)
    (hread : req.ReadEntity UpdateReleaseRequest.fields { Version := "latest" } = .ok in_)
    (herr : (ReleaseController.UpdateRelease env in_.Name in_.Chart in_.Repo in_.Version
      in_.Values in_.DryRun in_.DisableHooks in_.Recreate in_.Timeout in_.ResetValues in_.Wait
      in_.ReuseValues in_.Force).1 = .error e) :
    ReleaseResource.updateRelease env req =
      (ReleaseController.UpdateRelease env in_.Name in_.Chart in_.Repo in_.Version
        in_.Values in_.DryRun in_.DisableHooks in_.Recreate in_.Timeout in_.ResetValues in_.Wait
        in_.ReuseValues in_.Force).2 ++ errorResponse env errFailToUpdateRelease := by
  unfold ReleaseResource.updateRelease
  simp only [hread]
  generalize ReleaseController.UpdateRelease env in_.Name in_.Chart in_.Repo in_.Version
    in_.Values in_.DryRun in_.DisableHooks in_.Recreate in_.Timeout in_.ResetValues in_.Wait
    in_.ReuseValues in_.Force = r at herr ⊢
  obtain ⟨r1, r2⟩ := r
  cases r1 with
  | error e1 => rfl
  | ok out => simp at herr

/-- The one response write of `errorResponse`. -/
theorem responsesOf_errorResponse (env : Env) (err : restful.ServiceError) :
    responsesOf (errorResponse env err) = [.WriteServiceError err.Code err] := by
  unfold errorResponse responsesOf
  split <;> simp [List.filter, Event.isWrite]

/-- The controller `InstallRelease` writes nothing to the response. -/
theorem responsesOf_InstallRelease (env : Env) (name namespace_ repo chart version : String)
    (values : GoMap JSON) (wait : Bool) (timeout : Int) :
    responsesOf (ReleaseController.InstallRelease env name namespace_ repo chart version values
      wait timeout).2 = [] := by
  unfold ReleaseController.InstallRelease responsesOf
  split
  · simp [List.filter, Event.isWrite]
  · dsimp only
    split
    · simp [List.filter, Event.isWrite]
    · split <;> simp [List.filter, Event.isWrite]

/-- The controller `UpdateRelease` writes nothing to the response. -/
theorem responsesOf_UpdateRelease (env : Env) (name chart repo version : String)
    (values : GoMap JSON) (dryRun disableHooks recreate : Bool) (timeout : Int)
    (resetValues wait reuseValues force : Bool) :
    responsesOf (ReleaseController.UpdateRelease env name chart repo version values dryRun
      disableHooks recreate timeout resetValues wait reuseValues force).2 = [] := by
  unfold ReleaseController.UpdateRelease responsesOf
  split
  · simp [List.filter, Event.isWrite]
  · dsimp only
    split
    · simp [List.filter, Event.isWrite]
    · split <;> simp [List.filter, Event.isWrite]

/-- C10: when resolving the chart or loading its archive fails, `InstallRelease`
and `UpdateRelease` return that error without issuing the install or update
request, and the handler answers any controller error, of this or of another
origin, with the one fixed message of the operation and status 500. -/
theorem chart_resolution_failure (env : Env) :
    (∀ (name namespace_ repo chart version : String) (values : GoMap JSON) (wait : Bool)
        (timeout : Int) (e : Error), resolutionError env repo chart version = some e →
      (ReleaseController.InstallRelease env name namespace_ repo chart version values wait
          timeout).1 = .error e ∧
        ∀ q, Event.InstallRelease q ∉
          (ReleaseController.InstallRelease env name namespace_ repo chart version values wait
            timeout).2) ∧
    (∀ (name chart repo version : String) (values : GoMap JSON)
        (dryRun disableHooks recreate : Bool) (timeout : Int)
        (resetValues wait reuseValues force : Bool) (e : Error),
        resolutionError env repo chart version = some e →
      (ReleaseController.UpdateRelease env name chart repo version values dryRun disableHooks
          recreate timeout resetValues wait reuseValues force).1 = .error e ∧
        ∀ q, Event.UpdateRelease q ∉
          (ReleaseController.UpdateRelease env name chart repo version values dryRun disableHooks
            recreate timeout resetValues wait reuseValues force).2) ∧
    (∀ (req : restful.Request) (in_ : InstallReleaseRequest) (e : Error),
        req.ReadEntity InstallReleaseRequest.fields
          { Namespace := "default", Version := "latest" } = .ok in_ →
        (ReleaseController.InstallRelease env in_.Name in_.Namespace in_.Repo in_.Chart
          in_.Version in_.Values in_.Wait in_.Timeout).1 = .error e →
      responsesOf (ReleaseResource.installRelease env req) =
          [.WriteServiceError 500 ⟨500, "unable to install releases"⟩] ∧
        (resolutionError env in_.Repo in_.Chart in_.Version = some e →
          ∀ q, Event.InstallRelease q ∉ ReleaseResource.installRelease env req)) ∧
    (∀ (req : restful.Request) (in_ : UpdateReleaseRequest) (e : Error),
        req.ReadEntity UpdateReleaseRequest.fields { Version := "latest" } = .ok in_ →
        (ReleaseController.UpdateRelease env in_.Name in_.Chart in_.Repo in_.Version
          in_.Values in_.DryRun in_.DisableHooks in_.Recreate in_.Timeout in_.ResetValues
          in_.Wait in_.ReuseValues in_.Force).1 = .error e →
      responsesOf (ReleaseResource.updateRelease env req) =
          [.WriteServiceError 500 ⟨500, "unable to update release"⟩] ∧
        (resolutionError env in_.Repo in_.Chart in_.Version = some e →
          ∀ q, Event.UpdateRelease q ∉ ReleaseResource.updateRelease env req)) := by
  refine ⟨?_, ?_, ?_, ?_⟩
  · intro name namespace_ repo chart version values wait timeout e h
    exact InstallRelease_resolution_failure env name namespace_ repo chart version values wait
      timeout e h
  · intro name chart repo version values dryRun disableHooks recreate timeout resetValues wait
      reuseValues force e h
    exact UpdateRelease_resolution_failure env name chart repo version values dryRun
      disableHooks recreate timeout resetValues wait reuseValues force e h
  · intro req in_ e hread herr
    rw [installRelease_on_error env req in_ e hread herr]
    refine ⟨?_, ?_⟩
    · have h1 := responsesOf_InstallRelease env in_.Name in_.Namespace in_.Repo in_.Chart
        in_.Version in_.Values in_.Wait in_.Timeout
      have h2 := responsesOf_errorResponse env errFailToInstallRelease
      unfold responsesOf at h1 h2 ⊢
      rw [List.filter_append, h1, h2]
      rfl
    · intro hres q hq
      rcases List.mem_append.mp hq with hq | hq
      · exact (InstallRelease_resolution_failure env in_.Name in_.Namespace in_.Repo in_.Chart
          in_.Version in_.Values in_.Wait in_.Timeout e hres).2 q hq
      · obtain ⟨tail, htail, hlog⟩ := errorResponse_shape env errFailToInstallRelease
        rw [htail] at hq
        simp only [List.mem_cons, reduceCtorEq, false_or] at hq
        have := hlog _ hq
        simp at this
  · intro req in_ e hread herr
    rw [updateRelease_on_error env req in_ e hread herr]
    refine ⟨?_, ?_⟩
    · have h1 := responsesOf_UpdateRelease env in_.Name in_.Chart in_.Repo in_.Version
        in_.Values in_.DryRun in_.DisableHooks in_.Recreate in_.Timeout in_.ResetValues in_.Wait
        in_.ReuseValues in_.Force
      have h2 := responsesOf_errorResponse env errFailToUpdateRelease
      unfold responsesOf at h1 h2 ⊢
      rw [List.filter_append, h1, h2]
      rfl
    · intro hres q hq
      rcases List.mem_append.mp hq with hq | hq
      · exact (UpdateRelease_resolution_failure env in_.Name in_.Chart in_.Repo in_.Version
          in_.Values in_.DryRun in_.DisableHooks in_.Recreate in_.Timeout in_.ResetValues
          in_.Wait in_.ReuseValues in_.Force e hres).2 q hq
      · obtain ⟨tail, htail, hlog⟩ := errorResponse_shape env errFailToUpdateRelease
        rw [htail] at hq
        simp only [List.mem_cons, reduceCtorEq, false_or] at hq
        have := hlog _ hq
        simp at this

/-- C10 at a concrete input: installing from a repository that does not know
the chart. -/
theorem chart_resolution_failure_witness :
    resolutionError noChartEnv "r" "c" "latest" = some "chart not found" ∧
    (ReleaseController.InstallRelease noChartEnv "x" "default" "r" "c" "latest" [] false 0).1 =
      .error "chart not found" ∧
    ∀ q, Event.InstallRelease q ∉
      (ReleaseController.InstallRelease noChartEnv "x" "default" "r" "c" "latest" [] false 0).2 :=
  ⟨rfl, (chart_resolution_failure noChartEnv).1 "x" "default" "r" "c" "latest" [] false 0
    "chart not found" rfl⟩

/-- Reading a map after an assignment. -/
theorem GoMap.get_set {α : Type} (m : GoMap α) (k0 : String) (x : α) (k : String) :
    GoMap.get (GoMap.set m k0 x) k = if k = k0 then some x else GoMap.get m k := by
  induction m with
  | nil =>
    by_cases h : k = k0
    · subst h
      simp [GoMap.get, GoMap.set, List.lookup]
    · have hb : (k == k0) = false := by simpa using h
      simp [GoMap.get, GoMap.set, List.lookup, hb, h]
  | cons p rest ih =>
    obtain ⟨k1, v1⟩ := p
    unfold GoMap.get at ih ⊢
    by_cases h10 : k1 = k0
    · subst h10
      by_cases h : k = k1
      · subst h
        simp [GoMap.set, List.lookup]
      · have hb : (k == k1) = false := by simpa using h
        simp [GoMap.set, List.lookup, hb, h]
    · by_cases h : k = k1
      · subst h
        simp [GoMap.set, List.lookup, h10]
      · have hb : (k == k1) = false := by simpa using h
        simp only [GoMap.set, h10, if_false, List.lookup, hb, ih]

/-- A key is in the map exactly when reading it succeeds. -/
theorem GoMap.mem_keys_iff {α : Type} (m : GoMap α) (k : String) :
    k ∈ GoMap.keys m ↔ (GoMap.get m k).isSome = true := by
  unfold GoMap.get GoMap.keys
  rw [lookup_isSome_iff]
  simp

/-- Reading the overlay that the loop builds on top of `acc`. -/
theorem overlayLoop_get (env : Env) (values : GoMap JSON) :
    ∀ (acc : GoMap hapi_chart.Value) (k : String), (GoMap.keys values).Nodup →
      GoMap.get (overlayLoop env acc values) k =
        match GoMap.get values k with
        | some v => some { Value := sprintfV env v }
        | none => GoMap.get acc k := by
  induction values with
  | nil => intro acc k _; simp [overlayLoop, GoMap.get, List.lookup]
  | cons p rest ih =>
    obtain ⟨k0, v0⟩ := p
    intro acc k hnd
    have hnd' : (GoMap.keys rest).Nodup := (List.nodup_cons.mp hnd).2
    have hk0 : k0 ∉ GoMap.keys rest := (List.nodup_cons.mp hnd).1
    simp only [overlayLoop]
    rw [ih _ k hnd']
    by_cases h : k = k0
    · subst h
      have hnone : GoMap.get rest k = none := by
        cases hg : GoMap.get rest k with
        | none => rfl
        | some v =>
          exact absurd ((GoMap.mem_keys_iff rest k).mpr (by simp [hg])) hk0
      have hcons : GoMap.get ((k, v0) :: rest) k = some v0 := by
        simp [GoMap.get, List.lookup]
      rw [hnone, hcons, GoMap.get_set]
      simp
    · have hb : (k == k0) = false := by simpa using h
      have hcons : GoMap.get ((k0, v0) :: rest) k = GoMap.get rest k := by
        simp [GoMap.get, List.lookup, hb]
      rw [hcons, GoMap.get_set]
      simp [h]

/-- C5 (counterexample): when `yaml.Marshal` fails the install request is
still sent; its overlay holds the key `a` and its `Raw` field is empty, so the
key is in one form only. -/
theorem values_raw_empty_on_marshal_error :
    failingYamlEnv.yamlMarshal [("a", JSON.num "abc")] =
      .error "json: invalid number literal" ∧
    (valuesConfig failingYamlEnv [("a", JSON.num "abc")]).Raw = "" ∧
    GoMap.keys (valuesConfig failingYamlEnv [("a", JSON.num "abc")]).Values = ["a"] ∧
    (ReleaseController.InstallRelease failingYamlEnv "x" "default" "r" "c" "latest"
        [("a", JSON.num "abc")] false 0).2 =
      [ .ChartDetails "r" "c" "latest",
        .LoadFile "r/c-latest.tgz",
        .InstallRelease ⟨"x", "default", ⟨"r/c-latest.tgz"⟩, ⟨"", [("a", ⟨"abc"⟩)]⟩, false, 0⟩ ] := by
  refine ⟨rfl, rfl, rfl, rfl⟩

/-- C5 (amended): for a values map (distinct keys), the config sent by
`InstallRelease` and `UpdateRelease` once the chart is resolved and loaded has
an overlay with exactly the keys of the map, each holding the `%v` text of its
value, and a `Raw` field that is the text `yaml.Marshal` returns for the whole
map when that call succeeds and the empty string when it fails. -/
theorem values_in_both_forms (env : Env) (values : GoMap JSON)
    (hnd : (GoMap.keys values).Nodup) :
    (∀ k, k ∈ GoMap.keys (valuesConfig env values).Values ↔ k ∈ GoMap.keys values) ∧
    (∀ k v, GoMap.get values k = some v →
      GoMap.get (valuesConfig env values).Values k = some { Value := sprintfV env v }) ∧
    (∀ raw, env.yamlMarshal values = .ok raw → (valuesConfig env values).Raw = raw) ∧
    (∀ e, env.yamlMarshal values = .error e → (valuesConfig env values).Raw = "") ∧
    (∀ (name namespace_ repo chart version : String) (wait : Bool) (timeout : Int)
        (d : controller.ChartDetail) (c : hapi_chart.Chart),
        env.ChartDetails repo chart version = .ok d → env.LoadFile d.ChartFile = .ok c →
      Event.InstallRelease ⟨name, namespace_, c, valuesConfig env values, wait, timeout⟩ ∈
        (ReleaseController.InstallRelease env name namespace_ repo chart version values wait
          timeout).2) ∧
    (∀ (name chart repo version : String) (dryRun disableHooks recreate : Bool) (timeout : Int)
        (resetValues wait reuseValues force : Bool)
        (d : controller.ChartDetail) (c : hapi_chart.Chart),
        env.ChartDetails repo chart version = .ok d → env.LoadFile d.ChartFile = .ok c →
      Event.UpdateRelease ⟨name, c, valuesConfig env values, dryRun, disableHooks, recreate,
          timeout, resetValues, wait, reuseValues, force⟩ ∈
        (ReleaseController.UpdateRelease env name chart repo version values dryRun disableHooks
          recreate timeout resetValues wait reuseValues force).2) := by
  have hget : ∀ k, GoMap.get (valuesConfig env values).Values k =
      match GoMap.get values k with
      | some v => some { Value := sprintfV env v }
      | none => none := by
    intro k
    have := overlayLoop_get env values [] k hnd
    simpa [valuesConfig, GoMap.get] using this
  refine ⟨?_, ?_, ?_, ?_, ?_, ?_⟩
  · intro k
    rw [GoMap.mem_keys_iff, GoMap.mem_keys_iff, hget k]
    cases GoMap.get values k <;> simp
  · intro k v hv
    rw [hget k, hv]
  · intro raw hraw
    simp [valuesConfig, rawValues, hraw]
  · intro e he
    simp [valuesConfig, rawValues, he]
  · intro name namespace_ repo chart version wait timeout d c hd hc
    simp only [ReleaseController.InstallRelease, hd, hc]
    split <;> simp
  · intro name chart repo version dryRun disableHooks recreate timeout resetValues wait
      reuseValues force d c hd hc
    simp only [ReleaseController.UpdateRelease, hd, hc]
    split <;> simp

/-- C5 (amended) at concrete inputs: a map with a number and a string, with
`yaml.Marshal` succeeding and failing. -/
theorem values_in_both_forms_witness :
    (GoMap.keys [("a", JSON.num "1"), ("b", JSON.str "x")]).Nodup ∧
    GoMap.get (valuesConfig okEnv [("a", JSON.num "1"), ("b", JSON.str "x")]).Values "b" =
      some { Value := "x" } ∧
    (valuesConfig okEnv [("a", JSON.num "1"), ("b", JSON.str "x")]).Raw = "a: ?\nb: ?\n" ∧
    (valuesConfig failingYamlEnv [("a", JSON.num "1"), ("b", JSON.str "x")]).Raw = "" :=
  ⟨by decide,
    (values_in_both_forms okEnv [("a", JSON.num "1"), ("b", JSON.str "x")] (by decide)).2.1
      "b" (JSON.str "x") rfl,
    (values_in_both_forms okEnv [("a", JSON.num "1"), ("b", JSON.str "x")] (by decide)).2.2.1
      "a: ?\nb: ?\n" rfl,
    (values_in_both_forms failingYamlEnv [("a", JSON.num "1"), ("b", JSON.str "x")]
      (by decide)).2.2.2.1 "json: invalid number literal" rfl⟩

/-- Splitting never yields an empty list of tokens. -/
theorem strings.splitChars_ne_nil (sep : Char) (l : List Char) :
    strings.splitChars sep l ≠ [] := by
  induction l with
  | nil => simp [strings.splitChars]
  | cons c cs ih =>
    unfold strings.splitChars
    split
    · simp
    · split <;> simp

/-- The number of tokens is one more than the number of separators. -/
theorem strings.splitChars_length (sep : Char) (l : List Char) :
    (strings.splitChars sep l).length = l.count sep + 1 := by
  induction l with
  | nil => simp [strings.splitChars]
  | cons c cs ih =>
    unfold strings.splitChars
    by_cases h : c = sep
    · subst h
      simp [ih]
    · have hne : (c == sep) = false := by simpa using h
      rw [if_neg h, List.count_cons, hne]
      cases hs : strings.splitChars sep cs with
      | nil => exact absurd hs (strings.splitChars_ne_nil sep cs)
      | cons t ts =>
        rw [hs] at ih
        simpa using ih

/-- No token contains the separator. -/
theorem strings.splitChars_no_sep (sep : Char) (l : List Char) :
    ∀ t ∈ strings.splitChars sep l, sep ∉ t := by
  induction l with
  | nil => simp [strings.splitChars]
  | cons c cs ih =>
    unfold strings.splitChars
    by_cases h : c = sep
    · subst h
      intro t ht
      simp only [if_true, List.mem_cons] at ht
      rcases ht with ht | ht
      · subst ht
        simp
      · exact ih t ht
    · rw [if_neg h]
      cases hs : strings.splitChars sep cs with
      | nil => exact absurd hs (strings.splitChars_ne_nil sep cs)
      | cons t ts =>
        rw [hs] at ih
        intro u hu
        simp only [List.mem_cons] at hu
        rcases hu with hu | hu
        · subst hu
          have := ih t (by simp)
          simp only [List.mem_cons, not_or]
          exact ⟨fun hc => h hc.symm, this⟩
        · exact ih u (by simp [hu])

/-- Joining the tokens with the separator gives the input back. -/
theorem strings.splitChars_intercalate (sep : Char) (l : List Char) :
    List.intercalate [sep] (strings.splitChars sep l) = l := by
  induction l with
  | nil => simp [strings.splitChars, List.intercalate, List.intersperse]
  | cons c cs ih =>
    unfold strings.splitChars
    by_cases h : c = sep
    · subst h
      rw [if_pos rfl]
      cases hs : strings.splitChars c cs with
      | nil => exact absurd hs (strings.splitChars_ne_nil c cs)
      | cons t ts =>
        rw [hs] at ih
        rw [← ih]
        simp [List.intercalate, List.intersperse]
    · rw [if_neg h]
      cases hs : strings.splitChars sep cs with
      | nil => exact absurd hs (strings.splitChars_ne_nil sep cs)
      | cons t ts =>
        rw [hs] at ih
        rw [← ih]
        cases ts <;> simp [List.intercalate, List.intersperse]

/-- The slot of a token, as the loop of `listReleases` fills it. -/
theorem statusCodesOf_eq (scs : List String) :
    statusCodesOf scs = scs.map statusOfToken := by
  unfold statusCodesOf
  apply List.map_congr_left
  intro tok _
  unfold statusOfToken GoMap.get statusCodeMap
  by_cases h1 : tok = "unknown"
  · subst h1; rfl
  by_cases h2 : tok = "deployed"
  · subst h2; rfl
  by_cases h3 : tok = "deleted"
  · subst h3; rfl
  by_cases h4 : tok = "superseded"
  · subst h4; rfl
  by_cases h5 : tok = "failed"
  · subst h5; rfl
  have b1 : (tok == "unknown") = false := by simpa using h1
  have b2 : (tok == "deployed") = false := by simpa using h2
  have b3 : (tok == "deleted") = false := by simpa using h3
  have b4 : (tok == "superseded") = false := by simpa using h4
  have b5 : (tok == "failed") = false := by simpa using h5
  simp [List.lookup, b1, b2, b3, b4, b5, h2, h3, h4, h5]

/-- C2: for a non-empty `status-code` the filter holds one slot per
comma-separated token, in order, each the status of its token (`UNKNOWN` for a
token outside the table); for an empty or absent one it is empty; and
`deployed,bogus,failed` gives `[DEPLOYED, UNKNOWN, FAILED]`. -/
theorem listReleases_statusCodes (req : restful.Request) :
    (req.QueryParameter "status-code" = "" → (listReleasesRequest req).StatusCodes = []) ∧
    (List.lookup "status-code" req.query = none → (listReleasesRequest req).StatusCodes = []) ∧
    (req.QueryParameter "status-code" ≠ "" →
      ∃ tokens : List String,
        List.intercalate [','] (tokens.map String.data) =
          (req.QueryParameter "status-code").data ∧
        (∀ t ∈ tokens, ',' ∉ t.data) ∧
        tokens.length = (req.QueryParameter "status-code").data.count ',' + 1 ∧
        (listReleasesRequest req).StatusCodes.length = tokens.length ∧
        (listReleasesRequest req).StatusCodes = tokens.map statusOfToken) ∧
    (req.QueryParameter "status-code" = "deployed,bogus,failed" →
      (listReleasesRequest req).StatusCodes = [.DEPLOYED, .UNKNOWN, .FAILED]) := by
  have hempty : req.QueryParameter "status-code" = "" →
      (listReleasesRequest req).StatusCodes = [] := by
    intro h
    simp [listReleasesRequest, h]
  have hne : req.QueryParameter "status-code" ≠ "" →
      (listReleasesRequest req).StatusCodes =
        (strings.SplitComma (req.QueryParameter "status-code")).map statusOfToken := by
    intro h
    have hlen : (req.QueryParameter "status-code").length > 0 := by
      rcases hq : req.QueryParameter "status-code" with ⟨l⟩
      cases l with
      | nil => exact absurd hq h
      | cons c cs => simp [String.length]
    have hsplit : (strings.SplitComma (req.QueryParameter "status-code")).length > 0 := by
      simp [strings.SplitComma, strings.splitChars_length]
    simp only [listReleasesRequest, hlen, hsplit, if_true, statusCodesOf_eq]
  refine ⟨hempty, ?_, ?_, ?_⟩
  · intro h
    apply hempty
    simp [restful.Request.QueryParameter, h]
  · intro h
    refine ⟨strings.SplitComma (req.QueryParameter "status-code"), ?_, ?_, ?_, ?_, hne h⟩
    · have : (strings.SplitComma (req.QueryParameter "status-code")).map String.data =
          strings.splitChars ',' (req.QueryParameter "status-code").data := by
        simp [strings.SplitComma, List.map_map, Function.comp_def]
      rw [this, strings.splitChars_intercalate]
    · intro t ht
      simp only [strings.SplitComma, List.mem_map] at ht
      obtain ⟨l, hl, rfl⟩ := ht
      exact strings.splitChars_no_sep ',' _ l hl
    · simp [strings.SplitComma, strings.splitChars_length]
    · rw [hne h, List.length_map]
  · intro h
    rw [hne (by rw [h]; decide), h]
    decide

/-- C2 at a concrete input: the query `status-code=deployed,bogus,failed`. -/
theorem listReleases_statusCodes_witness :
    (listReleasesRequest ⟨[], [("status-code", "deployed,bogus,failed")], none⟩).StatusCodes =
      [.DEPLOYED, .UNKNOWN, .FAILED] :=
  (listReleases_statusCodes ⟨[], [("status-code", "deployed,bogus,failed")], none⟩).2.2.2 rfl

/-- The bound of `uint64` as a numeral. -/
theorem strconv.maxUint64_eq : strconv.maxUint64 = 18446744073709551615 := by
  decide

/-- A decimal digit has its value below ten. -/
theorem strconv.digitVal_digit (c : Char) (h : c.isDigit = true) :
    strconv.digitVal c = some (c.toNat - '0'.toNat) ∧ c.toNat - '0'.toNat < 10 := by
  simp only [Char.isDigit, Bool.and_eq_true, decide_eq_true_eq] at h
  have h1 : '0' ≤ c := h.1
  have h2 : c ≤ '9' := h.2
  have h1' : (48 : Nat) ≤ c.toNat := h.1
  have h2' : c.toNat ≤ 57 := h.2
  have h0 : '0'.toNat = 48 := rfl
  refine ⟨?_, by omega⟩
  simp [strconv.digitVal, h1, h2]

/-- Any other character is rejected by the loop of `ParseUint`. -/
theorem strconv.parseUintLoop_nondigit (n : Nat) (c : Char) (rest : List Char)
    (h : c.isDigit = false) :
    strconv.parseUintLoop n (c :: rest) = (0, some .ErrSyntax) := by
  have hnd : ¬ ('0' ≤ c ∧ c ≤ '9') := by
    intro hc
    have : c.isDigit = true := by
      simp only [Char.isDigit, Bool.and_eq_true, decide_eq_true_eq]
      exact ⟨hc.1, hc.2⟩
    rw [h] at this
    cases this
  unfold strconv.parseUintLoop strconv.digitVal
  rw [if_neg hnd]
  by_cases ha : 'a' ≤ c ∧ c ≤ 'z'
  · rw [if_pos ha]
    simp
  · rw [if_neg ha]
    by_cases hA : 'A' ≤ c ∧ c ≤ 'Z'
    · rw [if_pos hA]
      simp
    · rw [if_neg hA]

/-- One step of the loop on a digit. -/
theorem strconv.parseUintLoop_digit (n : Nat) (c : Char) (rest : List Char)
    (h : c.isDigit = true) :
    strconv.parseUintLoop n (c :: rest) =
      if n * 10 + (c.toNat - '0'.toNat) > strconv.maxUint64 then
        (strconv.maxUint64, some .ErrRange)
      else strconv.parseUintLoop (n * 10 + (c.toNat - '0'.toNat)) rest := by
  obtain ⟨hv, hlt⟩ := strconv.digitVal_digit c h
  rw [strconv.parseUintLoop, hv]
  have hm := strconv.maxUint64_eq
  simp only [ge_iff_le, gt_iff_lt]
  rw [if_neg (by omega)]
  by_cases hc : strconv.maxUint64 / 10 + 1 ≤ n
  · rw [if_pos hc, if_pos (by omega)]
  · rw [if_neg hc]

/-- Reading more digits does not decrease the number. -/
theorem le_decimalFrom (ds : List Char) : ∀ n, n ≤ decimalFrom n ds := by
  induction ds with
  | nil => intro n; simp [decimalFrom]
  | cons c cs ih =>
    intro n
    have := ih (n * 10 + (c.toNat - '0'.toNat))
    simp only [decimalFrom, List.foldl_cons] at this ⊢
    omega

/-- The loop on digits that fit: the number they denote. -/
theorem strconv.parseUintLoop_fits (ds : List Char) :
    ∀ n, (∀ c ∈ ds, c.isDigit = true) → decimalFrom n ds ≤ strconv.maxUint64 →
      strconv.parseUintLoop n ds = (decimalFrom n ds, none) := by
  induction ds with
  | nil => intro n _ _; simp [strconv.parseUintLoop, decimalFrom]
  | cons c cs ih =>
    intro n hd hfit
    have hstep : decimalFrom n (c :: cs) = decimalFrom (n * 10 + (c.toNat - '0'.toNat)) cs := by
      simp [decimalFrom]
    rw [hstep] at hfit ⊢
    have hle := le_decimalFrom cs (n * 10 + (c.toNat - '0'.toNat))
    rw [strconv.parseUintLoop_digit n c cs (hd c (by simp)), if_neg (by omega)]
    exact ih _ (fun c' hc' => hd c' (by simp [hc'])) hfit

/-- The loop on digits that do not fit: the largest `uint64` and `ErrRange`,
whatever follows the digits. -/
theorem strconv.parseUintLoop_overflow (ds : List Char) (rest : List Char) :
    ∀ n, n ≤ strconv.maxUint64 → (∀ c ∈ ds, c.isDigit = true) →
      decimalFrom n ds > strconv.maxUint64 →
      strconv.parseUintLoop n (ds ++ rest) = (strconv.maxUint64, some .ErrRange) := by
  induction ds with
  | nil =>
    intro n hn _ hov
    simp only [decimalFrom, List.foldl_nil] at hov
    omega
  | cons c cs ih =>
    intro n hn hd hov
    have hstep : decimalFrom n (c :: cs) = decimalFrom (n * 10 + (c.toNat - '0'.toNat)) cs := by
      simp [decimalFrom]
    rw [hstep] at hov
    rw [List.cons_append, strconv.parseUintLoop_digit n c _ (hd c (by simp))]
    by_cases hc : n * 10 + (c.toNat - '0'.toNat) > strconv.maxUint64
    · rw [if_pos hc]
    · rw [if_neg hc]
      exact ih _ (by omega) (fun c' hc' => hd c' (by simp [hc'])) hov

/-- The loop on digits that fit, followed by a character that is no digit:
`ErrSyntax` and zero. -/
theorem strconv.parseUintLoop_bad_char (ds : List Char) (c : Char) (rest : List Char)
    (hc : c.isDigit = false) :
    ∀ n, (∀ d ∈ ds, d.isDigit = true) → decimalFrom n ds ≤ strconv.maxUint64 →
      strconv.parseUintLoop n (ds ++ c :: rest) = (0, some .ErrSyntax) := by
  induction ds with
  | nil => intro n _ _; exact strconv.parseUintLoop_nondigit n c rest hc
  | cons d ds ih =>
    intro n hd hfit
    have hstep : decimalFrom n (d :: ds) = decimalFrom (n * 10 + (d.toNat - '0'.toNat)) ds := by
      simp [decimalFrom]
    rw [hstep] at hfit
    have hle := le_decimalFrom ds (n * 10 + (d.toNat - '0'.toNat))
    rw [List.cons_append, strconv.parseUintLoop_digit n d _ (hd d (by simp)),
      if_neg (by omega)]
    exact ih _ (fun c' hc' => hd c' (by simp [hc'])) hfit

/-- The result of `ParseUint` on a non-empty string of digits. -/
theorem strconv.ParseUint_digits (ds : List Char) (hne : ds ≠ [])
    (hd : ∀ c ∈ ds, c.isDigit = true) :
    strconv.ParseUint ds =
      if decimalValue ds ≤ strconv.maxUint64 then (decimalValue ds, none)
      else (strconv.maxUint64, some .ErrRange) := by
  cases ds with
  | nil => exact absurd rfl hne
  | cons c cs =>
    simp only [strconv.ParseUint]
    by_cases hfit : decimalValue (c :: cs) ≤ strconv.maxUint64
    · rw [if_pos hfit]
      exact strconv.parseUintLoop_fits (c :: cs) 0 hd hfit
    · rw [if_neg hfit]
      have := strconv.parseUintLoop_overflow (c :: cs) [] 0 (by simp) hd (by
        unfold decimalValue at hfit; omega)
      simpa using this

/-- The result of `ParseInt` once the sign is taken off. -/
theorem strconv.ParseInt_cons (s : String) (c : Char) (cs : List Char) (h : s.data = c :: cs) :
    strconv.ParseInt s =
      match strconv.ParseUint (if c == '+' ∨ c == '-' then cs else c :: cs) with
      | (_, some .ErrSyntax) => (0, some .ErrSyntax)
      | (un, _) =>
        if !(c == '-') ∧ un ≥ 2 ^ 63 then (((2 ^ 63 : Nat) : Int) - 1, some .ErrRange)
        else if (c == '-') ∧ un > 2 ^ 63 then (-((2 ^ 63 : Nat) : Int), some .ErrRange)
        else if (c == '-') then (-(un : Int), none)
        else ((un : Int), none) := by
  simp only [strconv.ParseInt, h]

/-- The value `ParseInt` returns when the text after the sign is a non-empty
string of digits: the number, or the nearest bound of `int64` when it is out of
range. -/
theorem strconv.ParseInt_digits (s : String) (c : Char) (cs : List Char) (h : s.data = c :: cs)
    (hne : (if c == '+' ∨ c == '-' then cs else c :: cs) ≠ [])
    (hd : ∀ d ∈ (if c == '+' ∨ c == '-' then cs else c :: cs), d.isDigit = true) :
    (strconv.ParseInt s).1 =
      if c = '-' then
        (if decimalValue (if c == '+' ∨ c == '-' then cs else c :: cs) ≤ 2 ^ 63 then
          -((decimalValue (if c == '+' ∨ c == '-' then cs else c :: cs) : Nat) : Int)
        else -(2 ^ 63 : Int))
      else
        (if decimalValue (if c == '+' ∨ c == '-' then cs else c :: cs) ≤ 2 ^ 63 - 1 then
          ((decimalValue (if c == '+' ∨ c == '-' then cs else c :: cs) : Nat) : Int)
        else (2 ^ 63 - 1 : Int)) := by
  rw [strconv.ParseInt_cons s c cs h, strconv.ParseUint_digits _ hne hd]
  generalize decimalValue (if c == '+' ∨ c == '-' then cs else c :: cs) = v
  rw [strconv.maxUint64_eq]
  by_cases hneg : c = '-'
  · subst hneg
    by_cases hfit : v ≤ 18446744073709551615
    · rw [if_pos hfit]
      norm_num
      split_ifs <;> first | rfl | omega
    · rw [if_neg hfit]
      norm_num
      split_ifs <;> first | rfl | omega
  · have hb : (c == '-') = false := by simpa using hneg
    by_cases hfit : v ≤ 18446744073709551615
    · rw [if_pos hfit]
      simp only [hb, hneg]
      norm_num
      split_ifs <;> first | rfl | omega
    · rw [if_neg hfit]
      simp only [hb, hneg]
      norm_num
      split_ifs <;> first | rfl | omega

/-- The result of `ParseInt` when the text after the sign is empty, or has a
character that is no digit after digits that fit `uint64`: zero and `ErrSyntax`. -/
theorem strconv.ParseInt_bad_text (s : String) (c : Char) (cs : List Char) (h : s.data = c :: cs)
    (hbad : (if c == '+' ∨ c == '-' then cs else c :: cs) = [] ∨
      ∃ ds b rest, (if c == '+' ∨ c == '-' then cs else c :: cs) = ds ++ b :: rest ∧
        (∀ d ∈ ds, d.isDigit = true) ∧ b.isDigit = false ∧
        decimalValue ds ≤ strconv.maxUint64) :
    strconv.ParseInt s = (0, some .ErrSyntax) := by
  rw [strconv.ParseInt_cons s c cs h]
  rcases hbad with hb | ⟨ds, b, rest, hb, hd, hnd, hfit⟩
  · rw [hb]
    simp [strconv.ParseUint]
  · rw [hb]
    have hloop := strconv.parseUintLoop_bad_char ds b rest hnd 0 hd hfit
    have : strconv.ParseUint (ds ++ b :: rest) = (0, some .ErrSyntax) := by
      cases ds with
      | nil => simpa [strconv.ParseUint] using hloop
      | cons d ds => simpa [strconv.ParseUint] using hloop
    rw [this]

/-- A digit is no sign character. -/
theorem isDigit_not_sign (c : Char) (h : c.isDigit = true) :
    (c == '+') = false ∧ (c == '-') = false := by
  constructor
  · cases hb : c == '+' with
    | false => rfl
    | true =>
      have : c = '+' := by simpa using hb
      subst this
      exact absurd h (by decide)
  · cases hb : c == '-' with
    | false => rfl
    | true =>
      have : c = '-' := by simpa using hb
      subst this
      exact absurd h (by decide)

/-- C7 (counterexample): a digit string just above the `int64` range gives the
limit `2^63 - 1`, not zero. -/
theorem listReleases_limit_out_of_range :
    (listReleasesRequest ⟨[], [("limit", "9223372036854775808")], none⟩).Limit =
        9223372036854775807 ∧
      (listReleasesRequest ⟨[], [("limit", "9223372036854775808")], none⟩).Limit ≠ 0 := by
  decide

/-- C7 (amended): the limit is zero when `limit` is absent, empty, a bare sign,
or has a character that is no digit after an optional sign and digits that fit
64 bits; for an optionally signed digit string it is the number when that is in
the `int64` range, and otherwise the bound of the range on that side
(`2^63 - 1` or `-2^63`). -/
theorem listReleases_limit (req : restful.Request) :
    (List.lookup "limit" req.query = none → (listReleasesRequest req).Limit = 0) ∧
    ((req.QueryParameter "limit").data = [] ∨ (req.QueryParameter "limit").data = ['+'] ∨
        (req.QueryParameter "limit").data = ['-'] → (listReleasesRequest req).Limit = 0) ∧
    (∀ ds : List Char, ds ≠ [] → (∀ d ∈ ds, d.isDigit = true) →
        (req.QueryParameter "limit").data = ds ∨ (req.QueryParameter "limit").data = '+' :: ds →
      (listReleasesRequest req).Limit =
        if decimalValue ds ≤ 2 ^ 63 - 1 then ((decimalValue ds : Nat) : Int)
        else (2 ^ 63 - 1 : Int)) ∧
    (∀ ds : List Char, ds ≠ [] → (∀ d ∈ ds, d.isDigit = true) →
        (req.QueryParameter "limit").data = '-' :: ds →
      (listReleasesRequest req).Limit =
        if decimalValue ds ≤ 2 ^ 63 then -((decimalValue ds : Nat) : Int)
        else -(2 ^ 63 : Int)) ∧
    (∀ (sign ds : List Char) (b : Char) (rest : List Char),
        sign = [] ∨ sign = ['+'] ∨ sign = ['-'] →
        (∀ d ∈ ds, d.isDigit = true) → b.isDigit = false → decimalValue ds < 2 ^ 64 →
        (sign = [] → ds = [] → b ≠ '+' ∧ b ≠ '-') →
        (req.QueryParameter "limit").data = sign ++ ds ++ b :: rest →
      (listReleasesRequest req).Limit = 0) := by
  have hlim : (listReleasesRequest req).Limit = (strconv.ParseInt (req.QueryParameter "limit")).1 :=
    rfl
  have hnil : (req.QueryParameter "limit").data = [] → (listReleasesRequest req).Limit = 0 := by
    intro h
    rw [hlim]
    simp [strconv.ParseInt, h]
  have hmax : strconv.maxUint64 = 2 ^ 64 - 1 := rfl
  refine ⟨?_, ?_, ?_, ?_, ?_⟩
  · intro h
    apply hnil
    simp [restful.Request.QueryParameter, h]
  · rintro (h | h | h)
    · exact hnil h
    · rw [hlim, strconv.ParseInt_bad_text _ '+' [] h (Or.inl (by simp))]
    · rw [hlim, strconv.ParseInt_bad_text _ '-' [] h (Or.inl (by simp))]
  · intro ds hne hd hdata
    rcases hdata with h | h
    · cases ds with
      | nil => exact absurd rfl hne
      | cons c cs =>
        obtain ⟨hp, hm⟩ := isDigit_not_sign c (hd c (by simp))
        have hbody : (if c == '+' ∨ c == '-' then cs else c :: cs) = c :: cs := by
          simp [hp, hm]
        have hcm : c ≠ '-' := by simpa using hm
        rw [hlim, strconv.ParseInt_digits _ c cs h (by rw [hbody]; simp) (by rw [hbody]; exact hd),
          hbody, if_neg hcm]
    · have hbody : (if '+' == '+' ∨ '+' == '-' then ds else '+' :: ds) = ds := by simp
      rw [hlim, strconv.ParseInt_digits _ '+' ds h (by rw [hbody]; exact hne)
        (by rw [hbody]; exact hd), hbody, if_neg (by decide)]
  · intro ds hne hd h
    have hbody : (if '-' == '+' ∨ '-' == '-' then ds else '-' :: ds) = ds := by simp
    rw [hlim, strconv.ParseInt_digits _ '-' ds h (by rw [hbody]; exact hne)
      (by rw [hbody]; exact hd), hbody, if_pos rfl]
  · intro sign ds b rest hsign hd hb hfit hfirst h
    have hfit' : decimalValue ds ≤ strconv.maxUint64 := by
      rw [hmax]; omega
    rw [hlim]
    rcases hsign with hs | hs | hs
    · subst hs
      cases ds with
      | nil =>
        obtain ⟨hbp, hbm⟩ := hfirst rfl rfl
        have h' : (req.QueryParameter "limit").data = b :: rest := by simpa using h
        have hbody : (if b == '+' ∨ b == '-' then rest else b :: rest) = [] ++ b :: rest := by
          simp [hbp, hbm]
        rw [strconv.ParseInt_bad_text _ b rest h'
          (Or.inr ⟨[], b, rest, hbody, by simp, hb, by simp [decimalValue, decimalFrom]⟩)]
      | cons c cs =>
        obtain ⟨hp, hm⟩ := isDigit_not_sign c (hd c (by simp))
        have h' : (req.QueryParameter "limit").data = c :: (cs ++ b :: rest) := by simpa using h
        have hbody : (if c == '+' ∨ c == '-' then cs ++ b :: rest else c :: (cs ++ b :: rest)) =
            (c :: cs) ++ b :: rest := by
          simp [hp, hm]
        rw [strconv.ParseInt_bad_text _ c _ h'
          (Or.inr ⟨c :: cs, b, rest, hbody, hd, hb, hfit'⟩)]
    · subst hs
      have h' : (req.QueryParameter "limit").data = '+' :: (ds ++ b :: rest) := by simpa using h
      rw [strconv.ParseInt_bad_text _ '+' _ h'
        (Or.inr ⟨ds, b, rest, by simp, hd, hb, hfit'⟩)]
    · subst hs
      have h' : (req.QueryParameter "limit").data = '-' :: (ds ++ b :: rest) := by simpa using h
      rw [strconv.ParseInt_bad_text _ '-' _ h'
        (Or.inr ⟨ds, b, rest, by simp, hd, hb, hfit'⟩)]

/-- C7 (amended) at concrete inputs: `limit=25` and `limit=-9223372036854775809`. -/
theorem listReleases_limit_witness :
    (listReleasesRequest ⟨[], [("limit", "25")], none⟩).Limit = 25 ∧
    (listReleasesRequest ⟨[], [("limit", "-9223372036854775809")], none⟩).Limit =
      -9223372036854775808 ∧
    (listReleasesRequest ⟨[], [("limit", "12x")], none⟩).Limit = 0 :=
  ⟨(listReleases_limit ⟨[], [("limit", "25")], none⟩).2.2.1 ['2', '5'] (by simp) (by decide)
      (Or.inl rfl),
    (listReleases_limit ⟨[], [("limit", "-9223372036854775809")], none⟩).2.2.2.1
      "9223372036854775809".data (by decide) (by decide) rfl,
    (listReleases_limit ⟨[], [("limit", "12x")], none⟩).2.2.2.2 [] ['1', '2'] 'x' []
      (Or.inl rfl) (by decide) (by decide) (by decide) (by simp) rfl⟩

/-! ### Decoding of request bodies -/

/-- The field a key is stored into is a field of the table whose name matches
the key without regard to case. -/
theorem json.findField_some {σ : Type} (fs : List (json.Field σ)) (key : String)
    (f : json.Field σ) (h : json.findField fs key = some f) :
    f ∈ fs ∧ json.foldName f.name = json.foldName key := by
  unfold json.findField at h
  cases h1 : fs.find? (fun f => f.name = key) with
  | some g =>
    rw [h1] at h
    simp only [Option.some.injEq] at h
    subst h
    have hm := List.mem_of_find?_eq_some h1
    have hp := List.find?_some h1
    simp only [decide_eq_true_eq] at hp
    exact ⟨hm, by rw [hp]⟩
  | none =>
    rw [h1] at h
    have hm := List.mem_of_find?_eq_some h
    have hp := List.find?_some h
    simp only [decide_eq_true_eq] at hp
    exact ⟨hm, hp⟩

/-- A key is skipped only when no field of the table matches it. -/
theorem json.findField_none {σ : Type} (fs : List (json.Field σ)) (key : String)
    (h : json.findField fs key = none) :
    ∀ f ∈ fs, json.foldName f.name ≠ json.foldName key := by
  unfold json.findField at h
  cases h1 : fs.find? (fun f => f.name = key) with
  | some g => rw [h1] at h; cases h
  | none =>
    rw [h1] at h
    intro f hf
    have := List.find?_eq_none.mp h f hf
    simpa using this

/-- A property of the struct that every assignment made for the text keeps is
kept by the decoding. -/
theorem json.decodeMembers_preserves {σ : Type} (fs : List (json.Field σ)) (P : σ → Prop)
    (members : List (String × JSON))
    (hstep : ∀ k v, (k, v) ∈ members → ∀ f, json.findField (json.typeFields fs) k = some f →
      ∀ s s', P s → f.assign s v = .ok s' → P s') :
    ∀ s r, P s → json.decodeMembers fs s members = .ok r → P r := by
  induction members with
  | nil =>
    intro s r hs h
    simp only [json.decodeMembers, Except.ok.injEq] at h
    exact h ▸ hs
  | cons m rest ih =>
    obtain ⟨k, v⟩ := m
    intro s r hs h
    have ih' := ih (fun k' v' hm => hstep k' v' (List.mem_cons_of_mem _ hm))
    simp only [json.decodeMembers] at h
    cases hf : json.findField (json.typeFields fs) k with
    | none =>
      rw [hf] at h
      exact ih' s r hs h
    | some f =>
      rw [hf] at h
      simp only at h
      cases ha : f.assign s v with
      | error e => rw [ha] at h; cases h
      | ok s' =>
        rw [ha] at h
        exact ih' s' r (hstep k v (by simp) f hf s s' hs ha) h

/-- What a successful assignment to a `string` field does. -/
theorem json.assignString_ok {σ : Type} (upd : σ → String → σ) (s s' : σ) (v : JSON)
    (h : json.assignString upd s v = .ok s') :
    (v = .null ∧ s' = s) ∨ ∃ x, v = .str x ∧ s' = upd s x := by
  cases v <;> simp [json.assignString] at h
  · exact Or.inl ⟨rfl, h.symm⟩
  · exact Or.inr ⟨_, rfl, h.symm⟩

/-- What a successful assignment to a `bool` field does. -/
theorem json.assignBool_ok {σ : Type} (upd : σ → Bool → σ) (s s' : σ) (v : JSON)
    (h : json.assignBool upd s v = .ok s') :
    (v = .null ∧ s' = s) ∨ ∃ x, v = .bool x ∧ s' = upd s x := by
  cases v <;> simp [json.assignBool] at h
  · exact Or.inl ⟨rfl, h.symm⟩
  · exact Or.inr ⟨_, rfl, h.symm⟩

/-- What a successful assignment to an `int64` field does. -/
theorem json.assignInt64_ok {σ : Type} (upd : σ → Int → σ) (s s' : σ) (v : JSON)
    (h : json.assignInt64 upd s v = .ok s') :
    (v = .null ∧ s' = s) ∨ ∃ lit, v = .num lit ∧ s' = upd s (strconv.ParseInt lit).1 := by
  cases v with
  | null => simp [json.assignInt64] at h; exact Or.inl ⟨rfl, h.symm⟩
  | num lit =>
    right
    refine ⟨lit, rfl, ?_⟩
    simp only [json.assignInt64] at h
    rcases hp : strconv.ParseInt lit with ⟨n, err⟩
    rw [hp] at h
    cases err with
    | none => simp at h; exact h.symm
    | some e => simp at h
  | bool b => simp [json.assignInt64] at h
  | str x => simp [json.assignInt64] at h
  | arr xs => simp [json.assignInt64] at h
  | obj ms => simp [json.assignInt64] at h

/-- What a successful assignment to an `int32` field does. -/
theorem json.assignInt32_ok {σ : Type} (upd : σ → Int → σ) (s s' : σ) (v : JSON)
    (h : json.assignInt32 upd s v = .ok s') :
    (v = .null ∧ s' = s) ∨ ∃ lit, v = .num lit ∧ s' = upd s (strconv.ParseInt lit).1 := by
  cases v with
  | null => simp [json.assignInt32] at h; exact Or.inl ⟨rfl, h.symm⟩
  | num lit =>
    right
    refine ⟨lit, rfl, ?_⟩
    simp only [json.assignInt32] at h
    rcases hp : strconv.ParseInt lit with ⟨n, err⟩
    rw [hp] at h
    cases err with
    | none =>
      simp only at h
      split at h
      · cases h
      · simp at h; exact h.symm
    | some e => simp at h
  | bool b => simp [json.assignInt32] at h
  | str x => simp [json.assignInt32] at h
  | arr xs => simp [json.assignInt32] at h
  | obj ms => simp [json.assignInt32] at h

/-- What a successful assignment to a map field does. -/
theorem json.assignMap_ok {σ : Type} (cur : σ → GoMap JSON) (upd : σ → GoMap JSON → σ)
    (s s' : σ) (v : JSON) (h : json.assignMap cur upd s v = .ok s') :
    (v = .null ∧ s' = upd s []) ∨
      ∃ ms, v = .obj ms ∧ s' = upd s (JSON.toInterfaceMap (cur s) ms) := by
  cases v <;> simp [json.assignMap] at h
  · exact Or.inl ⟨rfl, h.symm⟩
  · exact Or.inr ⟨_, rfl, h.symm⟩

/-- No two fields of `InstallReleaseRequest` share a JSON name. -/
theorem install_typeFields_eq :
    json.typeFields InstallReleaseRequest.fields = InstallReleaseRequest.fields := by
  rfl

/-- No two fields of `UpdateReleaseRequest` share a JSON name. -/
theorem update_typeFields_eq :
    json.typeFields UpdateReleaseRequest.fields = UpdateReleaseRequest.fields := by
  rfl

/-- The fields `Wait` and `Force` of `RollbackReleaseRequest` share the JSON
name `wait`, so the decoder keeps neither. -/
theorem rollback_typeFields_eq :
    json.typeFields RollbackReleaseRequest.fields = RollbackReleaseRequest.fields.take 6 := by
  rfl

/-- The first effect of `InstallRelease` is the chart lookup. -/
theorem InstallRelease_head (env : Env) (name namespace_ repo chart version : String)
    (values : GoMap JSON) (wait : Bool) (timeout : Int) :
    ∃ rest, (ReleaseController.InstallRelease env name namespace_ repo chart version values wait
      timeout).2 = .ChartDetails repo chart version :: rest := by
  unfold ReleaseController.InstallRelease
  split
  · exact ⟨_, rfl⟩
  · dsimp only
    split
    · exact ⟨_, rfl⟩
    · split <;> exact ⟨_, rfl⟩

/-- The first effect of `UpdateRelease` is the chart lookup. -/
theorem UpdateRelease_head (env : Env) (name chart repo version : String)
    (values : GoMap JSON) (dryRun disableHooks recreate : Bool) (timeout : Int)
    (resetValues wait reuseValues force : Bool) :
    ∃ rest, (ReleaseController.UpdateRelease env name chart repo version values dryRun
      disableHooks recreate timeout resetValues wait reuseValues force).2 =
        .ChartDetails repo chart version :: rest := by
  unfold ReleaseController.UpdateRelease
  split
  · exact ⟨_, rfl⟩
  · dsimp only
    split
    · exact ⟨_, rfl⟩
    · split <;> exact ⟨_, rfl⟩

/-- The `installRelease` handler after a successful read of the body: the
effects of the controller called on the fields of the body, then the response. -/
theorem installRelease_trace (env : Env) (req : restful.Request) (in_ : InstallReleaseRequest)
    (hread : req.ReadEntity InstallReleaseRequest.fields
      { Namespace := "default", Version := "latest" } = .ok in_) :
    ∃ response, ReleaseResource.installRelease env req =
      (ReleaseController.InstallRelease env in_.Name in_.Namespace in_.Repo in_.Chart
        in_.Version in_.Values in_.Wait in_.Timeout).2 ++ response := by
  unfold ReleaseResource.installRelease
  simp only [hread]
  generalize ReleaseController.InstallRelease env in_.Name in_.Namespace in_.Repo in_.Chart
    in_.Version in_.Values in_.Wait in_.Timeout = r
  obtain ⟨r1, r2⟩ := r
  cases r1 <;> exact ⟨_, rfl⟩

/-- The `updateRelease` handler after a successful read of the body: the
effects of the controller called on the fields of the body, then the response. -/
theorem updateRelease_trace (env : Env) (req : restful.Request) (in_ : UpdateReleaseRequest)
    (hread : req.ReadEntity UpdateReleaseRequest.fields { Version := "latest" } = .ok in_) :
    ∃ response, ReleaseResource.updateRelease env req =
      (ReleaseController.UpdateRelease env in_.Name in_.Chart in_.Repo in_.Version
        in_.Values in_.DryRun in_.DisableHooks in_.Recreate in_.Timeout in_.ResetValues in_.Wait
        in_.ReuseValues in_.Force).2 ++ response := by
  unfold ReleaseResource.updateRelease
  simp only [hread]
  generalize ReleaseController.UpdateRelease env in_.Name in_.Chart in_.Repo in_.Version
    in_.Values in_.DryRun in_.DisableHooks in_.Recreate in_.Timeout in_.ResetValues in_.Wait
    in_.ReuseValues in_.Force = r
  obtain ⟨r1, r2⟩ := r
  cases r1 <;> exact ⟨_, rfl⟩

/-- Once the chart is resolved and loaded, `InstallRelease` issues the install
request built from its arguments. -/
theorem InstallRelease_issues (env : Env) (name namespace_ repo chart version : String)
    (values : GoMap JSON) (wait : Bool) (timeout : Int)
    (d : controller.ChartDetail) (c : hapi_chart.Chart)
    (hd : env.ChartDetails repo chart version = .ok d) (hc : env.LoadFile d.ChartFile = .ok c) :
    Event.InstallRelease ⟨name, namespace_, c, valuesConfig env values, wait, timeout⟩ ∈
      (ReleaseController.InstallRelease env name namespace_ repo chart version values wait
        timeout).2 := by
  simp only [ReleaseController.InstallRelease, hd, hc]
  split <;> simp

/-- C3 (counterexample): with `namespace` and `version` supplied as empty
strings the chart is looked up at version `""` and the install request sent
has the namespace `""`; nothing is done with `latest` or `default`. -/
theorem install_empty_strings_not_defaulted :
    ReleaseResource.installRelease okEnv installWithEmptyStrings =
      [ .ChartDetails "r" "c" "",
        .LoadFile "r/c-.tgz",
        .InstallRelease ⟨"x", "", ⟨"r/c-.tgz"⟩, ⟨"a: ?\n", [("a", ⟨"1"⟩)]⟩, false, 0⟩,
        .WriteEntity (.installRelease ⟨"installed"⟩) ] ∧
    Event.ChartDetails "r" "c" "latest" ∉
      ReleaseResource.installRelease okEnv installWithEmptyStrings ∧
    ∀ q, Event.InstallRelease q ∈ ReleaseResource.installRelease okEnv installWithEmptyStrings →
      q.Namespace ≠ "default" := by
  have h : ReleaseResource.installRelease okEnv installWithEmptyStrings =
      [ .ChartDetails "r" "c" "",
        .LoadFile "r/c-.tgz",
        .InstallRelease ⟨"x", "", ⟨"r/c-.tgz"⟩, ⟨"a: ?\n", [("a", ⟨"1"⟩)]⟩, false, 0⟩,
        .WriteEntity (.installRelease ⟨"installed"⟩) ] := by
    rfl
  refine ⟨h, ?_, ?_⟩
  · rw [h]
    decide
  · intro q hq
    rw [h] at hq
    simp only [List.mem_cons, reduceCtorEq, Event.InstallRelease.injEq, List.not_mem_nil,
      or_false, false_or] at hq
    subst hq
    decide

/-- C3 (amended): the request with `namespace` and `version` supplied as empty
strings calls the controller with namespace `""` and version `""`, and, once
the chart is resolved and loaded, sends an install request whose `Namespace` is
`""` and whose overlay holds `"1"` under `a`; the same request with the two keys
omitted calls it with `default` and `latest`. -/
theorem install_empty_strings (env : Env) :
    (ReleaseResource.installRelease env installWithEmptyStrings).head? =
      some (.ChartDetails "r" "c" "") ∧
    (∀ d c, env.ChartDetails "r" "c" "" = .ok d → env.LoadFile d.ChartFile = .ok c →
      Event.InstallRelease ⟨"x", "", c, valuesConfig env [("a", .num "1")], false, 0⟩ ∈
        ReleaseResource.installRelease env installWithEmptyStrings) ∧
    GoMap.get (valuesConfig env [("a", .num "1")]).Values "a" = some ⟨"1"⟩ ∧
    (ReleaseResource.installRelease env installWithKeysOmitted).head? =
      some (.ChartDetails "r" "c" "latest") ∧
    (∀ d c, env.ChartDetails "r" "c" "latest" = .ok d → env.LoadFile d.ChartFile = .ok c →
      Event.InstallRelease ⟨"x", "default", c, valuesConfig env [("a", .num "1")], false, 0⟩ ∈
        ReleaseResource.installRelease env installWithKeysOmitted) := by
  have hread1 : installWithEmptyStrings.ReadEntity InstallReleaseRequest.fields
      { Namespace := "default", Version := "latest" } =
      .ok ⟨"x", "", "r", "c", "", [("a", .num "1")], false, 0⟩ := rfl
  have hread2 : installWithKeysOmitted.ReadEntity InstallReleaseRequest.fields
      { Namespace := "default", Version := "latest" } =
      .ok ⟨"x", "default", "r", "c", "latest", [("a", .num "1")], false, 0⟩ := rfl
  obtain ⟨resp1, h1⟩ := installRelease_trace env _ _ hread1
  obtain ⟨resp2, h2⟩ := installRelease_trace env _ _ hread2
  obtain ⟨rest1, hr1⟩ := InstallRelease_head env "x" "" "r" "c" "" [("a", .num "1")] false 0
  obtain ⟨rest2, hr2⟩ :=
    InstallRelease_head env "x" "default" "r" "c" "latest" [("a", .num "1")] false 0
  refine ⟨?_, ?_, rfl, ?_, ?_⟩
  · rw [h1]
    simp only [hr1]
    rfl
  · intro d c hd hc
    rw [h1]
    exact List.mem_append_left _ (InstallRelease_issues env _ _ _ _ _ _ _ _ d c hd hc)
  · rw [h2]
    simp only [hr2]
    rfl
  · intro d c hd hc
    rw [h2]
    exact List.mem_append_left _ (InstallRelease_issues env _ _ _ _ _ _ _ _ d c hd hc)

/-- C3 (amended) at a concrete environment. -/
theorem install_empty_strings_witness :
    okEnv.ChartDetails "r" "c" "" = .ok ⟨"r/c-.tgz"⟩ ∧
    okEnv.LoadFile "r/c-.tgz" = .ok ⟨"r/c-.tgz"⟩ ∧
    Event.InstallRelease ⟨"x", "", ⟨"r/c-.tgz"⟩, valuesConfig okEnv [("a", .num "1")], false, 0⟩ ∈
      ReleaseResource.installRelease okEnv installWithEmptyStrings :=
  ⟨rfl, rfl, (install_empty_strings okEnv).2.1 ⟨"r/c-.tgz"⟩ ⟨"r/c-.tgz"⟩ rfl rfl⟩

/-- The controller `ListReleases` writes nothing to the response. -/
theorem responsesOf_ListReleases (env : Env) (req : tiller.ListReleasesRequest) :
    responsesOf (ReleaseController.ListReleases env req).2 = [] := by
  unfold ReleaseController.ListReleases responsesOf
  split <;> simp [List.filter, Event.isWrite]

/-- C1 (the code at the failing input): when the tiller list call fails, the
one response `listReleases` writes is `errFailToListReleases` with status 400,
while the fixed errors of the other five operations have status 500; the six
messages are pairwise distinct. -/
theorem listReleases_error_status (env : Env) (req : restful.Request) (e : Error)
    (h : env.ListReleases (listReleasesRequest req) = .error e) :
    responsesOf (ReleaseResource.listReleases env req) =
        [.WriteServiceError 400 ⟨400, "unable to get list of releases"⟩] ∧
      [errFailToInstallRelease.Code, errFailtToUninstallRelease.Code, errFailToGetRelease.Code,
        errFailToUpdateRelease.Code, errFailToRollbackRelease.Code] = [500, 500, 500, 500, 500] ∧
      [errFailToListReleases.Message, errFailToInstallRelease.Message,
        errFailtToUninstallRelease.Message, errFailToGetRelease.Message,
        errFailToUpdateRelease.Message, errFailToRollbackRelease.Message].Nodup := by
  refine ⟨?_, by decide, by decide⟩
  have hc : ReleaseController.ListReleases env (listReleasesRequest req) =
      (.error e, [.ListReleases (listReleasesRequest req),
        .logError "unable to get list of releases from tiller"]) := by
    simp [ReleaseController.ListReleases, h]
  have h2 := responsesOf_errorResponse env errFailToListReleases
  unfold responsesOf at h2 ⊢
  simp only [ReleaseResource.listReleases, hc]
  rw [List.filter_append, h2]
  simp [List.filter, Event.isWrite, errFailToListReleases, restful.NewError,
    http.StatusBadRequest]

/-- C1 at a concrete input: a list request while tiller is down. -/
theorem listReleases_error_status_witness :
    downEnv.ListReleases (listReleasesRequest ⟨[], [], none⟩) = .error "rpc error" ∧
    responsesOf (ReleaseResource.listReleases downEnv ⟨[], [], none⟩) =
      [.WriteServiceError 400 ⟨400, "unable to get list of releases"⟩] :=
  ⟨rfl, (listReleases_error_status downEnv ⟨[], [], none⟩ "rpc error" rfl).1⟩

/-- No key of a rollback body changes `Wait` or `Force`. -/
theorem rollback_assign_keeps_Wait_Force (f : json.Field RollbackReleaseRequest)
    (hf : f ∈ json.typeFields RollbackReleaseRequest.fields)
    (s s' : RollbackReleaseRequest) (v : JSON)
    (ha : f.assign s v = .ok s') : s'.Wait = s.Wait ∧ s'.Force = s.Force := by
  rw [rollback_typeFields_eq] at hf
  simp only [RollbackReleaseRequest.fields, List.take_succ_cons, List.take_zero, List.mem_cons,
    List.not_mem_nil, or_false] at hf
  rcases hf with rfl | rfl | rfl | rfl | rfl | rfl <;> dsimp only at ha
  · rcases json.assignString_ok _ _ _ _ ha with ⟨_, rfl⟩ | ⟨x, _, rfl⟩ <;> exact ⟨rfl, rfl⟩
  · rcases json.assignBool_ok _ _ _ _ ha with ⟨_, rfl⟩ | ⟨x, _, rfl⟩ <;> exact ⟨rfl, rfl⟩
  · rcases json.assignBool_ok _ _ _ _ ha with ⟨_, rfl⟩ | ⟨x, _, rfl⟩ <;> exact ⟨rfl, rfl⟩
  · rcases json.assignInt32_ok _ _ _ _ ha with ⟨_, rfl⟩ | ⟨x, _, rfl⟩ <;> exact ⟨rfl, rfl⟩
  · rcases json.assignBool_ok _ _ _ _ ha with ⟨_, rfl⟩ | ⟨x, _, rfl⟩ <;> exact ⟨rfl, rfl⟩
  · rcases json.assignInt64_ok _ _ _ _ ha with ⟨_, rfl⟩ | ⟨x, _, rfl⟩ <;> exact ⟨rfl, rfl⟩

/-- C8 (the code at the failing input): whatever the rollback body holds under
`wait` and `force`, the rollback request sent has `Wait = false` and
`Force = false`; it is the first effect of the handler, and no chart is looked
up. -/
theorem rollbackRelease_wait_force (env : Env) (req : restful.Request)
    (in_ : RollbackReleaseRequest)
    (hread : req.ReadEntity RollbackReleaseRequest.fields {} = .ok in_) :
    in_.Wait = false ∧ in_.Force = false ∧
    (ReleaseResource.rollbackRelease env req).head? =
      some (.RollbackRelease ⟨in_.Name, in_.DryRun, in_.DisableHooks, in_.Version, in_.Recreate,
        in_.Timeout, false, false⟩) ∧
    ∀ repo chart version,
      Event.ChartDetails repo chart version ∉ ReleaseResource.rollbackRelease env req := by
  have hwf : in_.Wait = false ∧ in_.Force = false := by
    unfold restful.Request.ReadEntity at hread
    cases hb : req.body with
    | none => rw [hb] at hread; cases hread
    | some j =>
      rw [hb] at hread
      cases j with
      | obj members =>
        simp only [json.Unmarshal] at hread
        exact json.decodeMembers_preserves RollbackReleaseRequest.fields
          (fun t => t.Wait = false ∧ t.Force = false) members
          (fun k v _ f hf s s' hs ha => by
            obtain ⟨hmem, _⟩ := json.findField_some _ _ _ hf
            obtain ⟨h1, h2⟩ := rollback_assign_keeps_Wait_Force f hmem s s' v ha
            exact ⟨h1.trans hs.1, h2.trans hs.2⟩)
          {} in_ ⟨rfl, rfl⟩ hread
      | null =>
        simp only [json.Unmarshal, Except.ok.injEq] at hread
        subst hread
        exact ⟨rfl, rfl⟩
      | bool b => simp [json.Unmarshal] at hread
      | num l => simp [json.Unmarshal] at hread
      | str x => simp [json.Unmarshal] at hread
      | arr xs => simp [json.Unmarshal] at hread
  refine ⟨hwf.1, hwf.2, ?_, ?_⟩
  · cases hr : env.RollbackRelease ⟨in_.Name, in_.DryRun, in_.DisableHooks, in_.Version,
        in_.Recreate, in_.Timeout, false, false⟩ <;>
      simp [ReleaseResource.rollbackRelease, hread, ReleaseController.RollbackRelease, hwf.1,
        hwf.2, hr]
  · intro repo chart version
    cases hr : env.RollbackRelease ⟨in_.Name, in_.DryRun, in_.DisableHooks, in_.Version,
        in_.Recreate, in_.Timeout, in_.Wait, in_.Force⟩
    · simp only [ReleaseResource.rollbackRelease, hread, ReleaseController.RollbackRelease, hr,
        errorResponse]
      split <;> simp
    · simp only [ReleaseResource.rollbackRelease, hread, ReleaseController.RollbackRelease, hr,
        writeEntity, errorResponse]
      split
      · split <;> simp
      · simp

/-- C8 at the failing input: the body `{name:"x", version:3, wait:true,
force:true}`. -/
theorem rollbackRelease_wait_force_witness :
    rollbackWithWaitAndForce.ReadEntity RollbackReleaseRequest.fields {} =
      .ok ⟨"x", false, false, 3, false, 0, false, false⟩ ∧
    (ReleaseResource.rollbackRelease okEnv rollbackWithWaitAndForce).head? =
      some (.RollbackRelease ⟨"x", false, false, 3, false, 0, false, false⟩) :=
  ⟨rfl, (rollbackRelease_wait_force okEnv rollbackWithWaitAndForce
    ⟨"x", false, false, 3, false, 0, false, false⟩ rfl).2.2.1⟩

/-- The keys after a map assignment. -/
theorem GoMap.keys_set_nodup {α : Type} (m : GoMap α) (k : String) (x : α)
    (h : (GoMap.keys m).Nodup) : (GoMap.keys (GoMap.set m k x)).Nodup := by
  induction m with
  | nil => simp [GoMap.set, GoMap.keys]
  | cons p rest ih =>
    obtain ⟨k1, v1⟩ := p
    have hnd := List.nodup_cons.mp h
    by_cases h1 : k1 = k
    · subst h1
      simpa [GoMap.set, GoMap.keys] using h
    · have hrest : (GoMap.keys (GoMap.set rest k x)).Nodup := ih hnd.2
      have hk1 : k1 ∉ GoMap.keys (GoMap.set rest k x) := by
        intro hin
        have : k1 = k ∨ k1 ∈ GoMap.keys rest := by
          have := (GoMap.mem_keys_iff (GoMap.set rest k x) k1).mp hin
          rw [GoMap.get_set] at this
          by_cases hk : k1 = k
          · exact Or.inl hk
          · rw [if_neg hk] at this
            exact Or.inr ((GoMap.mem_keys_iff rest k1).mpr this)
        rcases this with hk | hk
        · exact h1 hk
        · exact hnd.1 hk
      have hset : GoMap.set ((k1, v1) :: rest) k x = (k1, v1) :: GoMap.set rest k x := by
        simp [GoMap.set, h1]
      rw [hset]
      exact List.nodup_cons.mpr ⟨hk1, hrest⟩

/-- A decoded JSON object is a map: its keys are distinct. -/
theorem JSON.toInterfaceMap_nodup (members : List (String × JSON)) :
    ∀ acc : GoMap JSON, (GoMap.keys acc).Nodup →
      (GoMap.keys (JSON.toInterfaceMap acc members)).Nodup := by
  induction members with
  | nil => intro acc h; simpa [JSON.toInterfaceMap] using h
  | cons p rest ih =>
    obtain ⟨k, v⟩ := p
    intro acc h
    simp only [JSON.toInterfaceMap]
    exact ih _ (GoMap.keys_set_nodup acc k _ h)

/-- The queries `?purge`, `?purge=false` and a query without the key, with
tiller answering. -/
theorem uninstallRelease_examples :
    ReleaseResource.uninstallRelease okEnv ⟨[("release", "x")], [("purge", "")], none⟩ =
      [.UninstallRelease ⟨"x", true⟩, .WriteEntity (.uninstallRelease ⟨"uninstalled"⟩)] ∧
    ReleaseResource.uninstallRelease okEnv ⟨[("release", "x")], [("purge", "false")], none⟩ =
      [.UninstallRelease ⟨"x", true⟩, .WriteEntity (.uninstallRelease ⟨"uninstalled"⟩)] ∧
    ReleaseResource.uninstallRelease okEnv ⟨[("release", "x")], [("force", "true")], none⟩ =
      [.UninstallRelease ⟨"x", false⟩, .WriteEntity (.uninstallRelease ⟨"uninstalled"⟩)] := by
  decide

/-- One member of an install body: what the decoder does with it, field by
field. -/
theorem install_member (s s' : InstallReleaseRequest) (k : String) (v : JSON)
    (h : json.decodeMember InstallReleaseRequest.fields s k v = .ok s') :
    s' =
      { Name := if json.foldName "name" = json.foldName k then storeString s.Name v else s.Name,
        Namespace :=
          if json.foldName "namespace" = json.foldName k then storeString s.Namespace v
          else s.Namespace,
        Repo := if json.foldName "repo" = json.foldName k then storeString s.Repo v else s.Repo,
        Chart :=
          if json.foldName "chart" = json.foldName k then storeString s.Chart v else s.Chart,
        Version :=
          if json.foldName "version" = json.foldName k then storeString s.Version v
          else s.Version,
        Values :=
          if json.foldName "values" = json.foldName k then storeMap s.Values v else s.Values,
        Wait := if json.foldName "wait" = json.foldName k then storeBool s.Wait v else s.Wait,
        Timeout :=
          if json.foldName "timeout" = json.foldName k then storeInt s.Timeout v
          else s.Timeout } := by
  unfold json.decodeMember at h
  cases hf : json.findField (json.typeFields InstallReleaseRequest.fields) k with
  | none =>
    rw [hf] at h
    simp only [Except.ok.injEq] at h
    subst h
    have hn := json.findField_none _ _ hf
    rw [install_typeFields_eq] at hn
    simp only [InstallReleaseRequest.fields, List.forall_mem_cons, List.not_mem_nil,
      IsEmpty.forall_iff, implies_true, and_true] at hn
    obtain ⟨h1, h2, h3, h4, h5, h6, h7, h8⟩ := hn
    simp only [if_neg h1, if_neg h2, if_neg h3, if_neg h4, if_neg h5, if_neg h6, if_neg h7,
      if_neg h8]
  | some f =>
    rw [hf] at h
    simp only at h
    obtain ⟨hmem, hfold⟩ := json.findField_some _ _ _ hf
    rw [install_typeFields_eq] at hmem
    simp only [InstallReleaseRequest.fields, List.mem_cons, List.mem_singleton,
      List.not_mem_nil, or_false] at hmem
    rcases hmem with rfl | rfl | rfl | rfl | rfl | rfl | rfl | rfl <;>
      dsimp only at h hfold <;> rw [← hfold]
    · rcases json.assignString_ok _ _ _ _ h with ⟨rfl, rfl⟩ | ⟨x, rfl, rfl⟩ <;>
        simp +decide [storeString]
    · rcases json.assignString_ok _ _ _ _ h with ⟨rfl, rfl⟩ | ⟨x, rfl, rfl⟩ <;>
        simp +decide [storeString]
    · rcases json.assignString_ok _ _ _ _ h with ⟨rfl, rfl⟩ | ⟨x, rfl, rfl⟩ <;>
        simp +decide [storeString]
    · rcases json.assignString_ok _ _ _ _ h with ⟨rfl, rfl⟩ | ⟨x, rfl, rfl⟩ <;>
        simp +decide [storeString]
    · rcases json.assignString_ok _ _ _ _ h with ⟨rfl, rfl⟩ | ⟨x, rfl, rfl⟩ <;>
        simp +decide [storeString]
    · rcases json.assignMap_ok _ _ _ _ _ h with ⟨rfl, rfl⟩ | ⟨x, rfl, rfl⟩ <;>
        simp +decide [storeMap]
    · rcases json.assignBool_ok _ _ _ _ h with ⟨rfl, rfl⟩ | ⟨x, rfl, rfl⟩ <;>
        simp +decide [storeBool]
    · rcases json.assignInt64_ok _ _ _ _ h with ⟨rfl, rfl⟩ | ⟨x, rfl, rfl⟩ <;>
        simp +decide [storeInt]

/-- One member of an update body: what the decoder does with it, field by
field. -/
theorem update_member (s s' : UpdateReleaseRequest) (k : String) (v : JSON)
    (h : json.decodeMember UpdateReleaseRequest.fields s k v = .ok s') :
    s' =
      {
        Name :=
          if json.foldName "name" = json.foldName k then storeString s.Name v else s.Name,
        Chart :=
          if json.foldName "chart" = json.foldName k then storeString s.Chart v else s.Chart,
        Repo :=
          if json.foldName "repo" = json.foldName k then storeString s.Repo v else s.Repo,
        Version :=
          if json.foldName "version" = json.foldName k then storeString s.Version v else s.Version,
        Values :=
          if json.foldName "values" = json.foldName k then storeMap s.Values v else s.Values,
        DryRun :=
          if json.foldName "dryRun" = json.foldName k then storeBool s.DryRun v else s.DryRun,
        DisableHooks :=
          if json.foldName "disableHooks" = json.foldName k then storeBool s.DisableHooks v else s.DisableHooks,
        Recreate :=
          if json.foldName "recreate" = json.foldName k then storeBool s.Recreate v else s.Recreate,
        Timeout :=
          if json.foldName "timeout" = json.foldName k then storeInt s.Timeout v else s.Timeout,
        ResetValues :=
          if json.foldName "resetValues" = json.foldName k then storeBool s.ResetValues v else s.ResetValues,
        Wait :=
          if json.foldName "wait" = json.foldName k then storeBool s.Wait v else s.Wait,
        ReuseValues :=
          if json.foldName "reuseValues" = json.foldName k then storeBool s.ReuseValues v else s.ReuseValues,
        Force :=
          if json.foldName "force" = json.foldName k then storeBool s.Force v else s.Force } := by
  unfold json.decodeMember at h
  cases hf : json.findField (json.typeFields UpdateReleaseRequest.fields) k with
  | none =>
    rw [hf] at h
    simp only [Except.ok.injEq] at h
    subst h
    have hn := json.findField_none _ _ hf
    rw [update_typeFields_eq] at hn
    simp only [UpdateReleaseRequest.fields, List.forall_mem_cons, List.not_mem_nil,
      IsEmpty.forall_iff, implies_true, and_true] at hn
    obtain ⟨h1, h2, h3, h4, h5, h6, h7, h8, h9, h10, h11, h12, h13⟩ := hn
    simp only [if_neg h1, if_neg h2, if_neg h3, if_neg h4, if_neg h5, if_neg h6, if_neg h7, if_neg h8, if_neg h9, if_neg h10, if_neg h11, if_neg h12, if_neg h13]
  | some f =>
    rw [hf] at h
    simp only at h
    obtain ⟨hmem, hfold⟩ := json.findField_some _ _ _ hf
    rw [update_typeFields_eq] at hmem
    simp only [UpdateReleaseRequest.fields, List.mem_cons, List.mem_singleton,
      List.not_mem_nil, or_false] at hmem
    rcases hmem with rfl | rfl | rfl | rfl | rfl | rfl | rfl | rfl | rfl | rfl | rfl | rfl | rfl <;>
      dsimp only at h hfold <;> rw [← hfold]
    · rcases json.assignString_ok _ _ _ _ h with ⟨rfl, rfl⟩ | ⟨x, rfl, rfl⟩ <;>
        simp +decide [storeString]
    · rcases json.assignString_ok _ _ _ _ h with ⟨rfl, rfl⟩ | ⟨x, rfl, rfl⟩ <;>
        simp +decide [storeString]
    · rcases json.assignString_ok _ _ _ _ h with ⟨rfl, rfl⟩ | ⟨x, rfl, rfl⟩ <;>
        simp +decide [storeString]
    · rcases json.assignString_ok _ _ _ _ h with ⟨rfl, rfl⟩ | ⟨x, rfl, rfl⟩ <;>
        simp +decide [storeString]
    · rcases json.assignMap_ok _ _ _ _ _ h with ⟨rfl, rfl⟩ | ⟨x, rfl, rfl⟩ <;>
        simp +decide [storeMap]
    · rcases json.assignBool_ok _ _ _ _ h with ⟨rfl, rfl⟩ | ⟨x, rfl, rfl⟩ <;>
        simp +decide [storeBool]
    · rcases json.assignBool_ok _ _ _ _ h with ⟨rfl, rfl⟩ | ⟨x, rfl, rfl⟩ <;>
        simp +decide [storeBool]
    · rcases json.assignBool_ok _ _ _ _ h with ⟨rfl, rfl⟩ | ⟨x, rfl, rfl⟩ <;>
        simp +decide [storeBool]
    · rcases json.assignInt64_ok _ _ _ _ h with ⟨rfl, rfl⟩ | ⟨x, rfl, rfl⟩ <;>
        simp +decide [storeInt]
    · rcases json.assignBool_ok _ _ _ _ h with ⟨rfl, rfl⟩ | ⟨x, rfl, rfl⟩ <;>
        simp +decide [storeBool]
    · rcases json.assignBool_ok _ _ _ _ h with ⟨rfl, rfl⟩ | ⟨x, rfl, rfl⟩ <;>
        simp +decide [storeBool]
    · rcases json.assignBool_ok _ _ _ _ h with ⟨rfl, rfl⟩ | ⟨x, rfl, rfl⟩ <;>
        simp +decide [storeBool]
    · rcases json.assignBool_ok _ _ _ _ h with ⟨rfl, rfl⟩ | ⟨x, rfl, rfl⟩ <;>
        simp +decide [storeBool]

/-- The decoder step on one member, as a single result. -/
theorem json.decodeMembers_cons {σ : Type} (fs : List (json.Field σ)) (s r : σ) (k : String)
    (v : JSON) (rest : List (String × JSON))
    (h : json.decodeMembers fs s ((k, v) :: rest) = .ok r) :
    ∃ s', json.decodeMember fs s k v = .ok s' ∧ json.decodeMembers fs s' rest = .ok r := by
  simp only [json.decodeMembers] at h
  unfold json.decodeMember
  cases hf : json.findField (json.typeFields fs) k with
  | none =>
    rw [hf] at h
    exact ⟨s, rfl, h⟩
  | some f =>
    rw [hf] at h
    simp only at h ⊢
    cases ha : f.assign s v with
    | error e => rw [ha] at h; cases h
    | ok s' =>
      rw [ha] at h
      exact ⟨s', rfl, h⟩

/-- The decoded install body, field by field. -/
theorem install_decode (members : List (String × JSON)) :
    ∀ s r : InstallReleaseRequest,
      json.decodeMembers InstallReleaseRequest.fields s members = .ok r →
      r =
        { Name := bodyField "name" storeString s.Name members,
          Namespace := bodyField "namespace" storeString s.Namespace members,
          Repo := bodyField "repo" storeString s.Repo members,
          Chart := bodyField "chart" storeString s.Chart members,
          Version := bodyField "version" storeString s.Version members,
          Values := bodyField "values" storeMap s.Values members,
          Wait := bodyField "wait" storeBool s.Wait members,
          Timeout := bodyField "timeout" storeInt s.Timeout members } := by
  induction members with
  | nil =>
    intro s r h
    simp only [json.decodeMembers, Except.ok.injEq] at h
    subst h
    rfl
  | cons m rest ih =>
    obtain ⟨k, v⟩ := m
    intro s r h
    obtain ⟨s', hstep, hrest⟩ := json.decodeMembers_cons _ s r k v rest h
    have hs' := install_member s s' k v hstep
    rw [ih s' r hrest, hs']
    rfl

/-- The decoded update body, field by field. -/
theorem update_decode (members : List (String × JSON)) :
    ∀ s r : UpdateReleaseRequest,
      json.decodeMembers UpdateReleaseRequest.fields s members = .ok r →
      r =
        { Name := bodyField "name" storeString s.Name members,
          Chart := bodyField "chart" storeString s.Chart members,
          Repo := bodyField "repo" storeString s.Repo members,
          Version := bodyField "version" storeString s.Version members,
          Values := bodyField "values" storeMap s.Values members,
          DryRun := bodyField "dryRun" storeBool s.DryRun members,
          DisableHooks := bodyField "disableHooks" storeBool s.DisableHooks members,
          Recreate := bodyField "recreate" storeBool s.Recreate members,
          Timeout := bodyField "timeout" storeInt s.Timeout members,
          ResetValues := bodyField "resetValues" storeBool s.ResetValues members,
          Wait := bodyField "wait" storeBool s.Wait members,
          ReuseValues := bodyField "reuseValues" storeBool s.ReuseValues members,
          Force := bodyField "force" storeBool s.Force members } := by
  induction members with
  | nil =>
    intro s r h
    simp only [json.decodeMembers, Except.ok.injEq] at h
    subst h
    rfl
  | cons m rest ih =>
    obtain ⟨k, v⟩ := m
    intro s r h
    obtain ⟨s', hstep, hrest⟩ := json.decodeMembers_cons _ s r k v rest h
    have hs' := update_member s s' k v hstep
    rw [ih s' r hrest, hs']
    rfl

/-- A field keeps its value over members that do not change it: those whose
key does not match, and those whose value the field ignores. -/
theorem bodyField_unchanged {α : Type} (name : String) (store : α → JSON → α)
    (members : List (String × JSON)) :
    ∀ cur : α,
      (∀ kv ∈ members, json.foldName name = json.foldName kv.1 → ∀ c, store c kv.2 = c) →
      bodyField name store cur members = cur := by
  induction members with
  | nil => intro cur _; rfl
  | cons m rest ih =>
    obtain ⟨k, v⟩ := m
    intro cur h
    have hrest := ih cur (fun kv hkv => h kv (List.mem_cons_of_mem _ hkv))
    simp only [bodyField]
    by_cases hk : json.foldName name = json.foldName k
    · rw [if_pos hk, h (k, v) (by simp) hk cur]
      exact hrest
    · rw [if_neg hk]
      exact hrest

/-- The value of a field over a text in two parts. -/
theorem bodyField_append {α : Type} (name : String) (store : α → JSON → α)
    (a b : List (String × JSON)) :
    ∀ cur : α, bodyField name store cur (a ++ b) =
      bodyField name store (bodyField name store cur a) b := by
  induction a with
  | nil => intro cur; rfl
  | cons m rest ih =>
    obtain ⟨k, v⟩ := m
    intro cur
    simp only [List.cons_append, bodyField]
    exact ih _

/-- A field holds what the last member that changes it stores. -/
theorem bodyField_last {α : Type} (name : String) (store : α → JSON → α) (cur : α)
    (pre post : List (String × JSON)) (k : String) (v : JSON)
    (hk : json.foldName name = json.foldName k)
    (hpost : ∀ kv ∈ post, json.foldName name = json.foldName kv.1 → ∀ c, store c kv.2 = c) :
    bodyField name store cur (pre ++ (k, v) :: post) =
      store (bodyField name store cur pre) v := by
  rw [bodyField_append]
  simp only [bodyField, if_pos hk]
  exact bodyField_unchanged name store post _ hpost

/-- Once the chart is resolved and loaded, `UpdateRelease` issues the update
request built from its arguments. -/
theorem UpdateRelease_issues (env : Env) (name chart repo version : String)
    (values : GoMap JSON) (dryRun disableHooks recreate : Bool) (timeout : Int)
    (resetValues wait reuseValues force : Bool)
    (d : controller.ChartDetail) (c : hapi_chart.Chart)
    (hd : env.ChartDetails repo chart version = .ok d) (hc : env.LoadFile d.ChartFile = .ok c) :
    Event.UpdateRelease ⟨name, c, valuesConfig env values, dryRun, disableHooks, recreate,
        timeout, resetValues, wait, reuseValues, force⟩ ∈
      (ReleaseController.UpdateRelease env name chart repo version values dryRun disableHooks
        recreate timeout resetValues wait reuseValues force).2 := by
  simp only [ReleaseController.UpdateRelease, hd, hc]
  split <;> simp

/-- C4 (counterexample): a body without a key `version` but with the key
`VERSION` calls the controller with the value of that key, not with `latest`;
and a body whose `version` key holds `null` calls it with the default `latest`
although the key is present. -/
theorem install_version_key_counterexample :
    (∀ kv ∈ [("name", JSON.str "x"), ("chart", JSON.str "c"), ("repo", JSON.str "r"),
        ("VERSION", JSON.str "1.2")], kv.1 ≠ "version") ∧
    ReleaseResource.installRelease okEnv installWithUpperCaseVersion =
      [ .ChartDetails "r" "c" "1.2",
        .LoadFile "r/c-1.2.tgz",
        .InstallRelease ⟨"x", "default", ⟨"r/c-1.2.tgz"⟩, ⟨"", []⟩, false, 0⟩,
        .WriteEntity (.installRelease ⟨"installed"⟩) ] ∧
    Event.ChartDetails "r" "c" "latest" ∉
      ReleaseResource.installRelease okEnv installWithUpperCaseVersion ∧
    ReleaseResource.installRelease okEnv installWithNullVersion =
      [ .ChartDetails "r" "c" "latest",
        .LoadFile "r/c-latest.tgz",
        .InstallRelease ⟨"x", "default", ⟨"r/c-latest.tgz"⟩, ⟨"", []⟩, false, 0⟩,
        .WriteEntity (.installRelease ⟨"installed"⟩) ] := by
  have h1 : ReleaseResource.installRelease okEnv installWithUpperCaseVersion =
      [ .ChartDetails "r" "c" "1.2",
        .LoadFile "r/c-1.2.tgz",
        .InstallRelease ⟨"x", "default", ⟨"r/c-1.2.tgz"⟩, ⟨"", []⟩, false, 0⟩,
        .WriteEntity (.installRelease ⟨"installed"⟩) ] := by
    rfl
  refine ⟨by decide, h1, ?_, by rfl⟩
  rw [h1]
  decide

/-- C4 (amended): for a body that is a JSON object and decodes, every field of
the request the handler passes on holds what the last member of the body whose
key matches the field (keys are compared without regard to case) stores into
it, and the default when no member changes it: `default` for the namespace and
`latest` for the version on install, `latest` for the version on update, the
zero value otherwise. So the version is `latest`, and the namespace `default`,
when no key matches or each matching key holds `null`, and a matching key that
holds a string passes that string. The controller is called with these fields:
the chart is looked up with repo, chart and version, and the request sent once
the chart is loaded carries the others. -/
theorem defaults_for_omitted_keys (env : Env) (req : restful.Request)
    (members : List (String × JSON)) (hbody : req.body = some (.obj members)) :
    (∀ in_ : InstallReleaseRequest,
        req.ReadEntity InstallReleaseRequest.fields
          { Namespace := "default", Version := "latest" } = .ok in_ →
      in_ =
        { Name := bodyField "name" storeString "" members,
          Namespace := bodyField "namespace" storeString "default" members,
          Repo := bodyField "repo" storeString "" members,
          Chart := bodyField "chart" storeString "" members,
          Version := bodyField "version" storeString "latest" members,
          Values := bodyField "values" storeMap [] members,
          Wait := bodyField "wait" storeBool false members,
          Timeout := bodyField "timeout" storeInt 0 members } ∧
      ((∀ kv ∈ members, json.foldName "version" = json.foldName kv.1 → kv.2 = .null) →
        in_.Version = "latest") ∧
      ((∀ kv ∈ members, json.foldName "namespace" = json.foldName kv.1 → kv.2 = .null) →
        in_.Namespace = "default") ∧
      (∀ pre k x post, members = pre ++ (k, JSON.str x) :: post →
        json.foldName "version" = json.foldName k →
        (∀ kv ∈ post, json.foldName "version" = json.foldName kv.1 → kv.2 = .null) →
        in_.Version = x) ∧
      (∀ pre k x post, members = pre ++ (k, JSON.str x) :: post →
        json.foldName "namespace" = json.foldName k →
        (∀ kv ∈ post, json.foldName "namespace" = json.foldName kv.1 → kv.2 = .null) →
        in_.Namespace = x) ∧
      (ReleaseResource.installRelease env req).head? =
        some (.ChartDetails in_.Repo in_.Chart in_.Version) ∧
      (∀ d c, env.ChartDetails in_.Repo in_.Chart in_.Version = .ok d →
        env.LoadFile d.ChartFile = .ok c →
        Event.InstallRelease ⟨in_.Name, in_.Namespace, c, valuesConfig env in_.Values, in_.Wait,
          in_.Timeout⟩ ∈ ReleaseResource.installRelease env req)) ∧
    (∀ in_ : UpdateReleaseRequest,
        req.ReadEntity UpdateReleaseRequest.fields { Version := "latest" } = .ok in_ →
      in_ =
        { Name := bodyField "name" storeString "" members,
          Chart := bodyField "chart" storeString "" members,
          Repo := bodyField "repo" storeString "" members,
          Version := bodyField "version" storeString "latest" members,
          Values := bodyField "values" storeMap [] members,
          DryRun := bodyField "dryRun" storeBool false members,
          DisableHooks := bodyField "disableHooks" storeBool false members,
          Recreate := bodyField "recreate" storeBool false members,
          Timeout := bodyField "timeout" storeInt 0 members,
          ResetValues := bodyField "resetValues" storeBool false members,
          Wait := bodyField "wait" storeBool false members,
          ReuseValues := bodyField "reuseValues" storeBool false members,
          Force := bodyField "force" storeBool false members } ∧
      ((∀ kv ∈ members, json.foldName "version" = json.foldName kv.1 → kv.2 = .null) →
        in_.Version = "latest") ∧
      (∀ pre k x post, members = pre ++ (k, JSON.str x) :: post →
        json.foldName "version" = json.foldName k →
        (∀ kv ∈ post, json.foldName "version" = json.foldName kv.1 → kv.2 = .null) →
        in_.Version = x) ∧
      (ReleaseResource.updateRelease env req).head? =
        some (.ChartDetails in_.Repo in_.Chart in_.Version) ∧
      (∀ d c, env.ChartDetails in_.Repo in_.Chart in_.Version = .ok d →
        env.LoadFile d.ChartFile = .ok c →
        Event.UpdateRelease ⟨in_.Name, c, valuesConfig env in_.Values, in_.DryRun,
          in_.DisableHooks, in_.Recreate, in_.Timeout, in_.ResetValues, in_.Wait,
          in_.ReuseValues, in_.Force⟩ ∈ ReleaseResource.updateRelease env req)) := by
  have hnull : ∀ (name : String) (ms : List (String × JSON)),
      (∀ kv ∈ ms, json.foldName name = json.foldName kv.1 → kv.2 = .null) →
      ∀ kv ∈ ms, json.foldName name = json.foldName kv.1 → ∀ c, storeString c kv.2 = c := by
    intro name ms h kv hkv hm c
    rw [h kv hkv hm]
    rfl
  constructor
  · intro in_ hread
    have hdec : json.decodeMembers InstallReleaseRequest.fields
        { Namespace := "default", Version := "latest" } members = .ok in_ := by
      simpa [restful.Request.ReadEntity, hbody, json.Unmarshal] using hread
    have heq := install_decode members _ in_ hdec
    have hv : in_.Version = bodyField "version" storeString "latest" members := by
      rw [heq]
    have hns : in_.Namespace = bodyField "namespace" storeString "default" members := by
      rw [heq]
    refine ⟨heq, ?_, ?_, ?_, ?_, ?_, ?_⟩
    · intro h
      rw [hv]
      exact bodyField_unchanged _ _ members _ (hnull _ _ h)
    · intro h
      rw [hns]
      exact bodyField_unchanged _ _ members _ (hnull _ _ h)
    · intro pre k x post hm hk hpost
      rw [hv, hm, bodyField_last _ _ _ pre post k _ hk (hnull _ _ hpost)]
      rfl
    · intro pre k x post hm hk hpost
      rw [hns, hm, bodyField_last _ _ _ pre post k _ hk (hnull _ _ hpost)]
      rfl
    · obtain ⟨response, hresp⟩ := installRelease_trace env req in_ hread
      obtain ⟨rest, hrest⟩ := InstallRelease_head env in_.Name in_.Namespace in_.Repo in_.Chart
        in_.Version in_.Values in_.Wait in_.Timeout
      rw [hresp, hrest]
      rfl
    · intro d c hd hc
      obtain ⟨response, hresp⟩ := installRelease_trace env req in_ hread
      rw [hresp]
      exact List.mem_append_left _ (InstallRelease_issues env _ _ _ _ _ _ _ _ d c hd hc)
  · intro in_ hread
    have hdec : json.decodeMembers UpdateReleaseRequest.fields { Version := "latest" } members =
        .ok in_ := by
      simpa [restful.Request.ReadEntity, hbody, json.Unmarshal] using hread
    have heq := update_decode members _ in_ hdec
    have hv : in_.Version = bodyField "version" storeString "latest" members := by
      rw [heq]
    refine ⟨heq, ?_, ?_, ?_, ?_⟩
    · intro h
      rw [hv]
      exact bodyField_unchanged _ _ members _ (hnull _ _ h)
    · intro pre k x post hm hk hpost
      rw [hv, hm, bodyField_last _ _ _ pre post k _ hk (hnull _ _ hpost)]
      rfl
    · obtain ⟨response, hresp⟩ := updateRelease_trace env req in_ hread
      obtain ⟨rest, hrest⟩ := UpdateRelease_head env in_.Name in_.Chart in_.Repo in_.Version
        in_.Values in_.DryRun in_.DisableHooks in_.Recreate in_.Timeout in_.ResetValues in_.Wait
        in_.ReuseValues in_.Force
      rw [hresp, hrest]
      rfl
    · intro d c hd hc
      obtain ⟨response, hresp⟩ := updateRelease_trace env req in_ hread
      rw [hresp]
      exact List.mem_append_left _
        (UpdateRelease_issues env _ _ _ _ _ _ _ _ _ _ _ _ _ d c hd hc)

/-- C4 (amended) at concrete inputs: the install body `{name, chart, repo,
values}` and the update body `{name, chart, repo}`. -/
theorem defaults_for_omitted_keys_witness :
    installWithKeysOmitted.ReadEntity InstallReleaseRequest.fields
        { Namespace := "default", Version := "latest" } =
      .ok ⟨"x", "default", "r", "c", "latest", [("a", .num "1")], false, 0⟩ ∧
    (ReleaseResource.installRelease okEnv installWithKeysOmitted).head? =
      some (.ChartDetails "r" "c" "latest") ∧
    Event.InstallRelease ⟨"x", "default", ⟨"r/c-latest.tgz"⟩,
        valuesConfig okEnv [("a", .num "1")], false, 0⟩ ∈
      ReleaseResource.installRelease okEnv installWithKeysOmitted ∧
    updateWithVersionOmitted.ReadEntity UpdateReleaseRequest.fields { Version := "latest" } =
      .ok ⟨"x", "c", "r", "latest", [], false, false, false, 0, false, false, false, false⟩ ∧
    Event.UpdateRelease ⟨"x", ⟨"r/c-latest.tgz"⟩, valuesConfig okEnv [], false, false, false, 0,
        false, false, false, false⟩ ∈
      ReleaseResource.updateRelease okEnv updateWithVersionOmitted :=
  ⟨rfl,
    ((defaults_for_omitted_keys okEnv installWithKeysOmitted _ rfl).1
      ⟨"x", "default", "r", "c", "latest", [("a", .num "1")], false, 0⟩ rfl).2.2.2.2.2.1,
    ((defaults_for_omitted_keys okEnv installWithKeysOmitted _ rfl).1
      ⟨"x", "default", "r", "c", "latest", [("a", .num "1")], false, 0⟩ rfl).2.2.2.2.2.2
      ⟨"r/c-latest.tgz"⟩ ⟨"r/c-latest.tgz"⟩ rfl rfl,
    rfl,
    ((defaults_for_omitted_keys okEnv updateWithVersionOmitted _ rfl).2
      ⟨"x", "c", "r", "latest", [], false, false, false, 0, false, false, false, false⟩
      rfl).2.2.2.2 ⟨"r/c-latest.tgz"⟩ ⟨"r/c-latest.tgz"⟩ rfl rfl⟩

end Rudder
